import Mathlib

/-!
File I/O for logs (`glog_file.go`).

A shallow embedding of the log-file management code: the naming helpers
(`shortHostname`, `logName`, `logInitName`), the one-time resolution of the
candidate directories (`createLogDirs` behind `onceLogDirs`), and the two file
operations `create` and `openFile`, which run against an operating system given
as a record of operations on a world state.
-/

namespace Glog

/-! ## Strings -/

/-- Go's `strings.Index(s, c)` for a one-character needle: the position of the
first occurrence of `c`, or `-1` when there is none. -/
def stringsIndex : List Char → Char → Int
  | [], _ => -1
  | x :: xs, c =>
    if x = c then 0
    else
      let i := stringsIndex xs c
      if i ≥ 0 then i + 1 else -1

/-- The function `shortHostname` returns its argument, truncating at the first period. -/
def shortHostname (hostname : String) : String :=
  let i := stringsIndex hostname.data '.'
  if i ≥ 0 then String.mk (hostname.data.take i.toNat) else hostname

/-! ## Formatting (`fmt.Sprintf` with `%0Nd`) -/

/-- Left-pads a digit list with zeros up to `prec` digits. -/
def padZero (prec : Nat) (ds : List Char) : List Char :=
  List.replicate (prec - ds.length) '0' ++ ds

/-- The verb `%0Nd` of `fmt.Sprintf` applied to an `int`, with `N = width`: decimal
digits, zero-padded to the width; a minus sign counts towards the width. -/
def fmtZeroPad (width : Nat) (n : Int) : String :=
  if n < 0 then String.mk ('-' :: padZero (width - 1) (Nat.toDigits 10 n.natAbs))
  else String.mk (padZero width (Nat.toDigits 10 n.toNat))

/-! ## Time (`time.Time` as read by `logName`) -/

/-- A `time.Time`: an instant (`sec` seconds and `nsec` nanoseconds after the Unix
epoch) together with `offset`, the number of seconds east of UTC that the value's
`Location` applies at that instant. -/
structure Time where
  sec : Int
  nsec : Nat
  offset : Int
deriving DecidableEq, Repr

/-- Seconds since the epoch on the wall clock of the time's location. -/
def Time.wall (t : Time) : Int := t.sec + t.offset

/-- Whole days since 1970-01-01 on the wall clock. -/
def Time.days (t : Time) : Int := t.wall / 86400

/-- Seconds elapsed within the wall-clock day. -/
def Time.secOfDay (t : Time) : Int := t.wall % 86400

/-- The function `isLeap` of package `time`. -/
def isLeap (year : Int) : Bool :=
  year % 4 = 0 && (year % 100 ≠ 0 || year % 400 = 0)

/-- The table `daysBefore` of package `time`: the days of a non-leap year before the
month with the given index. -/
def daysBefore : Nat → Int
  | 0 => 0
  | 1 => 31
  | 2 => 59
  | 3 => 90
  | 4 => 120
  | 5 => 151
  | 6 => 181
  | 7 => 212
  | 8 => 243
  | 9 => 273
  | 10 => 304
  | 11 => 334
  | _ => 365

/-- The year and the day within the year (from 0) of a day count, as `absDate` of
package `time` computes them, by cutting off cycles of 400, 100, 4 and 1 years. Days
are counted from 1970-01-01 and shifted to 0001-01-01; `absDate` counts them, unsigned,
from the year -292277022399, which is a whole number of 400-year cycles earlier. -/
def absDate (days : Int) : Int × Int :=
  let d := days + 719162
  let n400 := d / 146097
  let d := d - 146097 * n400
  let n := d / 36524
  let n100 := n - n / 4
  let d := d - 36524 * n100
  let n4 := d / 1461
  let d := d - 1461 * n4
  let n := d / 365
  let n1 := n - n / 4
  let d := d - 365 * n1
  (400 * n400 + 100 * n100 + 4 * n4 + n1 + 1, d)

/-- The month and the day of the month of a day within a year: the second half of
`absDate` of package `time`. -/
def monthDay (year yday : Int) : Int × Int :=
  if isLeap year && yday == 59 then (2, 29)
  else
    let day := if isLeap year && yday > 59 then yday - 1 else yday
    let month := (day / 31).toNat
    let endd := daysBefore (month + 1)
    if day ≥ endd then ((month : Int) + 2, day - endd + 1)
    else ((month : Int) + 1, day - daysBefore month + 1)

/-- The method `t.Year()`. -/
def Time.Year (t : Time) : Int := (absDate t.days).1

/-- The value `t.YearDay() - 1`: the day within the year, from 0. -/
def Time.yday (t : Time) : Int := (absDate t.days).2

/-- The method `t.Month()`, as the integer `1..12` that `%d` prints. -/
def Time.Month (t : Time) : Int := (monthDay t.Year t.yday).1

/-- The method `t.Day()`. -/
def Time.Day (t : Time) : Int := (monthDay t.Year t.yday).2

/-- The method `t.Hour()`. -/
def Time.Hour (t : Time) : Int := t.secOfDay / 3600

/-- The method `t.Minute()`. -/
def Time.Minute (t : Time) : Int := t.secOfDay % 3600 / 60

/-- The method `t.Second()`. -/
def Time.Second (t : Time) : Int := t.secOfDay % 60

/-! ## File names -/

/-- The function `logName` returns a new log file name containing tag, with start time t, and
the name for the symlink for tag. `program` is the package variable of that name
(`filepath.Base(os.Args[0])`). -/
def logName (program tag : String) (t : Time) : String × String :=
  (program ++ "." ++ tag ++ "." ++
     fmtZeroPad 4 t.Year ++ fmtZeroPad 2 t.Month ++ fmtZeroPad 2 t.Day ++ "-" ++
     fmtZeroPad 2 t.Hour ++ fmtZeroPad 2 t.Minute ++ fmtZeroPad 2 t.Second,
   program ++ "." ++ tag)

/-- The function `logInitName`: the name without a time stamp, and the name for the link. -/
def logInitName (program tag : String) : String × String :=
  (program ++ "." ++ tag, tag)

/-- A number of two decimal digits, as the text of these two digits. -/
def twoDigits (n : Int) : String :=
  String.mk [Nat.digitChar (n.toNat / 10), Nat.digitChar (n.toNat % 10)]

/-- A number of four decimal digits, as the text of these four digits. -/
def fourDigits (n : Int) : String :=
  String.mk [Nat.digitChar (n.toNat / 1000), Nat.digitChar (n.toNat / 100 % 10),
    Nat.digitChar (n.toNat / 10 % 10), Nat.digitChar (n.toNat % 10)]

/-- The value of a decimal digit. -/
def digitVal (c : Char) : Nat := c.toNat - 48

/-- The number that a text of decimal digits denotes. -/
def decVal (l : List Char) : Nat := l.foldl (fun a c => 10 * a + digitVal c) 0

/-- The day of the year (from 0) of a month and a day of the month. -/
def ydayOf (leap : Bool) (month day : Int) : Int :=
  daysBefore (month - 1).toNat + day - 1 + (if leap && month > 2 then 1 else 0)

/-! ## Candidate directories -/

/-- Inputs that the package reads from its surroundings: the value of the flag
`log_dir`, the result of `os.TempDir()`, and the package variable `program`. -/
structure Config where
  logDir : String
  tempDir : String
  program : String
deriving DecidableEq, Repr

/-- The package variables `logDirs` and `onceLogDirs` (a `sync.Once`, here the flag
that records whether its function has run). -/
structure Globals where
  logDirs : List String
  onceLogDirs : Bool
deriving DecidableEq, Repr

/-- The package state at program start: `logDirs` is nil and `onceLogDirs` unused. -/
def Globals.initial : Globals := ⟨[], false⟩

/-- The function `createLogDirs` appends the one candidate directory to `logDirs`. -/
def createLogDirs (cfg : Config) (g : Globals) : Globals :=
  if cfg.logDir ≠ "" then
    { g with logDirs := g.logDirs ++ [cfg.logDir] }
  else
    { g with logDirs := g.logDirs ++ [cfg.tempDir] }

/-- The call `onceLogDirs.Do(f)`: runs `f` unless an earlier call has already run it. -/
def onceDo (f : Globals → Globals) (g : Globals) : Globals :=
  if g.onceLogDirs then g else { f g with onceLogDirs := true }

/-! ## The operating system -/

/-- Errors of the `os` package, by the class that the code can tell apart. -/
inductive OsErr where
  | notExist
  | exist
  | permission
  | isDir
  | notDir
  | notEmpty
  | tooManyFiles
  | invalid
deriving DecidableEq, Repr

/-- The function `os.IsNotExist(err)`; a nil error is not a not-exist error. -/
def isNotExist : Option OsErr → Bool
  | some .notExist => true
  | _ => false

/-- An open file (`*os.File`), identified by a number. -/
abbrev Handle := Nat

/-- The two ways in which the code opens a file: `os.OpenFile(name, os.O_RDWR, 0666)`
and `os.Create(name)`, which is `os.OpenFile(name, O_RDWR|O_CREATE|O_TRUNC, 0666)`. -/
inductive OpenMode where
  | rdwr
  | createTrunc
deriving DecidableEq, Repr

/-- The operations of `os` and `path/filepath` that the code calls, over a world
state `W`. Every operation returns its result (`none` is a nil error) and the world
it leaves. -/
structure OS (W : Type) where
  join : String → String → String
  stat : String → W → Option OsErr × W
  rename : String → String → W → Option OsErr × W
  mkdirAll : String → W → Option OsErr × W
  openFile : String → OpenMode → W → Except OsErr Handle × W
  remove : String → W → Option OsErr × W
  symlink : String → String → W → Option OsErr × W

/-- Errors that `create` and `openFile` return. -/
inductive LogError where
  /-- The error `errors.New("log: no log dirs")`. -/
  | noLogDirs
  /-- The error `fmt.Errorf("log: cannot create log: %v", lastErr)`. -/
  | cannotCreate (lastErr : Option OsErr)
  /-- The initial `lastErr` of `openFile`, `errors.New("文件不存在")`. -/
  | fileMissing
  /-- An error of the `os` package, returned as it is. -/
  | os (e : OsErr)
deriving DecidableEq, Repr

/-- The three results of `create`. -/
structure CreateResult where
  f : Option Handle
  filename : String
  err : Option LogError
deriving DecidableEq, Repr

/-- The loop of `create` over the candidate directories, with the `return` that
follows it. `lastErr` is the variable of that name. -/
def createLoop {W : Type} (os : OS W) (program tag : String) (t : Time) (name link : String) :
    List String → Option OsErr → W → CreateResult × W
  | [], lastErr, w => (⟨none, "", some (.cannotCreate lastErr)⟩, w)
  | dir :: rest, _, w =>
    let fname := os.join dir name
    let st := os.stat fname w
    let w1 :=
      if !isNotExist st.1 then
        (os.rename fname (os.join dir (logName program tag t).1) st.2).2
      else st.2
    match os.mkdirAll dir w1 with
    | (some err, w2) => (⟨none, "", some (.cannotCreate (some err))⟩, w2)
    | (none, w2) =>
      match os.openFile fname .createTrunc w2 with
      | (.ok f, w3) =>
        let symlink := os.join dir link
        let w4 := (os.remove symlink w3).2
        let w5 := (os.symlink name symlink w4).2
        (⟨some f, fname, none⟩, w5)
      | (.error err, w3) => createLoop os program tag t name link rest (some err) w3

/-- The function `create` creates a new log file and returns the file and its filename. If the
file is created successfully, create also attempts to update the symlink for that
tag, ignoring errors. -/
def create {W : Type} (cfg : Config) (os : OS W) (tag : String) (t : Time)
    (g : Globals) (w : W) : CreateResult × Globals × W :=
  let g1 := onceDo (createLogDirs cfg) g
  if g1.logDirs.length = 0 then
    (⟨none, "", some .noLogDirs⟩, g1, w)
  else
    let names := logInitName cfg.program tag
    let r := createLoop os cfg.program tag t names.1 names.2 g1.logDirs none w
    (r.1, g1, r.2)

/-- The loop of `openFile` over the candidate directories, with the `return` that
follows it. -/
def openLoop {W : Type} (os : OS W) (name : String) :
    List String → Option LogError → W → (Option Handle × Option LogError) × W
  | [], lastErr, w => ((none, lastErr), w)
  | dir :: rest, _, w =>
    let fname := os.join dir name
    let st := os.stat fname w
    if !isNotExist st.1 then
      match os.openFile fname .rdwr st.2 with
      | (.ok f, w1) => ((some f, none), w1)
      | (.error err, w1) => openLoop os name rest (some (.os err)) w1
    else
      openLoop os name rest (st.1.map LogError.os) st.2

/-- The function `openFile` opens the existing log file of a tag. -/
def openFile {W : Type} (cfg : Config) (os : OS W) (tag : String)
    (g : Globals) (w : W) : (Option Handle × Option LogError) × Globals × W :=
  let g1 := onceDo (createLogDirs cfg) g
  if g1.logDirs.length = 0 then
    ((none, some .noLogDirs), g1, w)
  else
    let name := (logInitName cfg.program tag).1
    let r := openLoop os name g1.logDirs (some .fileMissing) w
    (r.1, g1, r.2)

/-! ## Recording the calls -/

deriving instance DecidableEq for Except

/-- A call of an operation of `OS`, with its arguments and the result it gave. -/
inductive Event where
  | stat (path : String) (res : Option OsErr)
  | rename (oldpath newpath : String) (res : Option OsErr)
  | mkdirAll (path : String) (res : Option OsErr)
  | openFile (path : String) (mode : OpenMode) (res : Except OsErr Handle)
  | remove (path : String) (res : Option OsErr)
  | symlink (target path : String) (res : Option OsErr)
deriving DecidableEq

/-- The operating system `os` with a log of the calls made, oldest first. -/
def traced {W : Type} (os : OS W) : OS (W × List Event) where
  join := os.join
  stat p s :=
    ((os.stat p s.1).1, ((os.stat p s.1).2, s.2 ++ [.stat p (os.stat p s.1).1]))
  rename a b s :=
    ((os.rename a b s.1).1, ((os.rename a b s.1).2, s.2 ++ [.rename a b (os.rename a b s.1).1]))
  mkdirAll p s :=
    ((os.mkdirAll p s.1).1, ((os.mkdirAll p s.1).2, s.2 ++ [.mkdirAll p (os.mkdirAll p s.1).1]))
  openFile p m s :=
    ((os.openFile p m s.1).1,
      ((os.openFile p m s.1).2, s.2 ++ [.openFile p m (os.openFile p m s.1).1]))
  remove p s :=
    ((os.remove p s.1).1, ((os.remove p s.1).2, s.2 ++ [.remove p (os.remove p s.1).1]))
  symlink a b s :=
    ((os.symlink a b s.1).1,
      ((os.symlink a b s.1).2, s.2 ++ [.symlink a b (os.symlink a b s.1).1]))

/-! ## Paths -/

/-- The elements of a path between its separators `/`. -/
def splitPath : List Char → List (List Char)
  | [] => [[]]
  | c :: cs =>
    if c = '/' then [] :: splitPath cs
    else
      match splitPath cs with
      | [] => [[c]]
      | x :: xs => (c :: x) :: xs

/-- One element in `filepath.Clean`: an empty element and `.` are dropped, and `..`
removes the element before it (at the root it is dropped). -/
def cleanStep (rooted : Bool) (stack : List (List Char)) (elem : List Char) :
    List (List Char) :=
  if elem = [] ∨ elem = ['.'] then stack
  else if elem = ['.', '.'] then
    match stack.getLast? with
    | some top => if top = ['.', '.'] then stack ++ [elem] else stack.dropLast
    | none => if rooted then stack else stack ++ [elem]
  else stack ++ [elem]

/-- The function `filepath.Clean` for the separator `/`. -/
def clean (p : String) : String :=
  let rooted := p.data.head? = some '/'
  let body := List.intercalate ['/'] ((splitPath p.data).foldl (cleanStep rooted) [])
  let out := (if rooted then ['/'] else []) ++ body
  if out = [] then "." else String.mk out

/-- The function `filepath.Join` for two elements and the separator `/`: empty
elements are ignored and the result is cleaned. -/
def pathJoin (dir name : String) : String :=
  if dir = "" then (if name = "" then "" else clean name)
  else if name = "" then clean dir
  else clean (dir ++ "/" ++ name)

/-- The directories above a path, outermost first, read off the path `pre ++ rest`:
each part of the path that ends before a separator. -/
def ancestorsAux : List Char → List Char → List String
  | _, [] => []
  | pre, c :: cs =>
    if c = '/' ∧ pre ≠ [] ∧ pre.getLast? ≠ some '/' then
      String.mk pre :: ancestorsAux (pre ++ [c]) cs
    else ancestorsAux (pre ++ [c]) cs

/-- The directories above a path, outermost first. -/
def ancestors (p : String) : List String := ancestorsAux [] p.data

/-- The path without the separators at its end. -/
def stripSlashes (p : String) : String :=
  String.mk (p.data.reverse.dropWhile (· = '/')).reverse

/-! ## A file system in memory -/

/-- What a path holds: a regular file (its identity and content), a symbolic link
(its target) or a directory. -/
inductive Node where
  | file (ino : Nat) (data : String)
  | link (target : String)
  | dir
deriving DecidableEq, Repr

/-- A file system with its limits. The table gives what each path holds, the newest
entry for a path first (`none` for a path that has been removed); `nextIno` is the
identity of the next new file; `locked` lists the directories that deny changes to
their entries (no write permission); `fdLeft` is the number of files that can still
be opened. Paths are used as they are given, with `/` as separator; the directories
above a path must be directories (a link in that place is not followed). -/
structure MemFS where
  table : List (String × Option Node)
  nextIno : Nat
  locked : List String
  fdLeft : Nat

/-- What a path holds. -/
def MemFS.nodes (fs : MemFS) (path : String) : Option Node :=
  match fs.table.lookup path with
  | some v => v
  | none => none

/-- The file system with `path` holding `v`. -/
def MemFS.set (fs : MemFS) (path : String) (v : Option Node) : MemFS :=
  { fs with table := (path, v) :: fs.table }

/-- The empty file system: only the root directory, which holds nothing. -/
def MemFS.empty : MemFS := ⟨[], 0, [], 1024⟩

/-- Whether the directory of the path denies changes to its entries. -/
def MemFS.denies (fs : MemFS) (path : String) : Bool :=
  match (ancestors path).getLast? with
  | some d => fs.locked.contains d
  | none => false

/-- The error of walking down a chain of directories: the first one that is missing
(`ENOENT`) or is not a directory (`ENOTDIR`). -/
def MemFS.walk (fs : MemFS) : List String → Option OsErr
  | [] => none
  | a :: rest =>
    match fs.nodes a with
    | some .dir => fs.walk rest
    | none => some .notExist
    | some _ => some .notDir

/-- The error of walking down to a path, through the directories above it. -/
def MemFS.blocked (fs : MemFS) (path : String) : Option OsErr := fs.walk (ancestors path)

/-- Whether a directory holds an entry. -/
def MemFS.hasChild (fs : MemFS) (path : String) : Bool :=
  fs.table.any (fun e => (ancestors e.1).contains path && (fs.nodes e.1).isSome)

/-- The path that a link at `path` with the target `target` leads to: the target when
it is absolute, and otherwise the target below the directory of the link. -/
def linkTarget (path target : String) : String :=
  if target.data.head? = some '/' then target
  else
    match (ancestors path).getLast? with
    | some d => d ++ "/" ++ target
    | none => if path.data.head? = some '/' then "/" ++ target else target

/-- Follows the links at the end of a path, at most `fuel` of them (`ELOOP` after
that): the path that is not a link at which they end. -/
def MemFS.resolve (fs : MemFS) : Nat → String → Except OsErr String
  | 0, _ => .error .invalid
  | fuel + 1, path =>
    match fs.blocked path with
    | some e => .error e
    | none =>
      match fs.nodes path with
      | some (.link target) => fs.resolve fuel (linkTarget path target)
      | _ => .ok path

/-- What a path leads to, following links. -/
def MemFS.leadsTo (fs : MemFS) (path : String) : Option Node :=
  match fs.resolve 8 path with
  | .error _ => none
  | .ok q => fs.nodes q

/-- The call `os.Stat(path)`, which follows links. -/
def MemFS.stat (fs : MemFS) (path : String) : Option OsErr × MemFS :=
  match fs.resolve 8 path with
  | .error e => (some e, fs)
  | .ok q =>
    match fs.nodes q with
    | none => (some .notExist, fs)
    | some _ => (none, fs)

/-- The call `os.Rename(a, b)`. It replaces a file or link at `b`; a file is not
renamed onto a directory, and a directory is renamed only when it holds nothing. -/
def MemFS.rename (fs : MemFS) (a b : String) : Option OsErr × MemFS :=
  match fs.blocked a with
  | some e => (some e, fs)
  | none =>
    match fs.nodes a with
    | none => (some .notExist, fs)
    | some n =>
      match fs.blocked b with
      | some e => (some e, fs)
      | none =>
        if a = b then (none, fs)
        else if fs.denies a || fs.denies b then (some .permission, fs)
        else
          match n, fs.nodes b with
          | .dir, some .dir =>
            if fs.hasChild a || fs.hasChild b then (some .notEmpty, fs)
            else (none, (fs.set b (some n)).set a none)
          | .dir, some _ => (some .notDir, fs)
          | .dir, none =>
            if fs.hasChild a then (some .invalid, fs)
            else (none, (fs.set b (some n)).set a none)
          | _, some .dir => (some .isDir, fs)
          | _, _ => (none, (fs.set b (some n)).set a none)

/-- Makes the directories of a chain, outermost first; the ones made before an error
stay. A regular file in the chain gives `ENOTDIR`, and so does a link that leads to
something; a link that leads nowhere gives `EEXIST`. -/
def MemFS.mkdirs (fs : MemFS) : List String → Option OsErr × MemFS
  | [] => (none, fs)
  | a :: rest =>
    match fs.nodes a with
    | some .dir => fs.mkdirs rest
    | none =>
      if fs.denies a then (some .permission, fs)
      else (fs.set a (some .dir)).mkdirs rest
    | some (.file _ _) => (some .notDir, fs)
    | some (.link _) =>
      if (fs.leadsTo a).isSome then (some .notDir, fs) else (some .exist, fs)

/-- The call `os.MkdirAll(path, perm)`. When `Stat` finds the path, the call returns at
once: nil for a directory and `ENOTDIR` for anything else. Otherwise it makes the
missing directories above the path and then the directory. -/
def MemFS.mkdirAll (fs : MemFS) (path : String) : Option OsErr × MemFS :=
  match fs.leadsTo (stripSlashes path) with
  | some .dir => (none, fs)
  | some _ => (some .notDir, fs)
  | none => fs.mkdirs (ancestors (stripSlashes path) ++ [stripSlashes path])

/-- The call `os.OpenFile(path, flag, 0666)` for the two flag sets of `OpenMode`; it
follows links, and with `createTrunc` it makes the file when nothing is there and
empties it when it is there. -/
def MemFS.openFile (fs : MemFS) (path : String) (mode : OpenMode) :
    Except OsErr Handle × MemFS :=
  if fs.fdLeft = 0 then (.error .tooManyFiles, fs)
  else
    match fs.resolve 8 path with
    | .error e => (.error e, fs)
    | .ok q =>
      match fs.nodes q, mode with
      | some (.file i _), .rdwr => (.ok i, { fs with fdLeft := fs.fdLeft - 1 })
      | some (.file i _), .createTrunc =>
        (.ok i, { (fs.set q (some (.file i ""))) with fdLeft := fs.fdLeft - 1 })
      | some .dir, _ => (.error .isDir, fs)
      | some (.link _), _ => (.error .invalid, fs)
      | none, .rdwr => (.error .notExist, fs)
      | none, .createTrunc =>
        if fs.denies q then (.error .permission, fs)
        else
          (.ok fs.nextIno,
            { (fs.set q (some (.file fs.nextIno ""))) with
              nextIno := fs.nextIno + 1, fdLeft := fs.fdLeft - 1 })

/-- The call `os.Remove(path)`: removes a file, a link or a directory that holds
nothing. -/
def MemFS.remove (fs : MemFS) (path : String) : Option OsErr × MemFS :=
  match fs.blocked path with
  | some e => (some e, fs)
  | none =>
    match fs.nodes path with
    | none => (some .notExist, fs)
    | some n =>
      if fs.denies path then (some .permission, fs)
      else if n = .dir && fs.hasChild path then (some .notEmpty, fs)
      else (none, fs.set path none)

/-- The call `os.Symlink(target, path)`. -/
def MemFS.symlink (fs : MemFS) (target path : String) : Option OsErr × MemFS :=
  match fs.blocked path with
  | some e => (some e, fs)
  | none =>
    match fs.nodes path with
    | some _ => (some .exist, fs)
    | none =>
      if fs.denies path then (some .permission, fs)
      else (none, fs.set path (some (.link target)))

/-- The operations on the file system in memory. -/
def memOS (join : String → String → String) : OS MemFS where
  join := join
  stat p fs := fs.stat p
  rename a b fs := fs.rename a b
  mkdirAll p fs := fs.mkdirAll p
  openFile p m fs := fs.openFile p m
  remove p fs := fs.remove p
  symlink t p fs := fs.symlink t p

/-! ## Vocabulary of the statements -/

/-- The directory that `createLogDirs` chooses. -/
def chosenDir (cfg : Config) : String :=
  if cfg.logDir ≠ "" then cfg.logDir else cfg.tempDir

/-- How the body of the loop of `create` ends for one candidate directory. -/
inductive StepOutcome (W : Type) where
  | stop (e : OsErr) (w : W)
  | done (f : Handle) (w : W)
  | next (e : OsErr) (w : W)

/-- One run of the body of the loop of `create`: how it ends, and the calls made. -/
def createStep {W : Type} (os : OS W) (program tag : String) (t : Time) (name link : String)
    (dir : String) (w : W) : StepOutcome W × List Event :=
  let fname := os.join dir name
  let st := os.stat fname w
  let rn := os.rename fname (os.join dir (logName program tag t).1) st.2
  let w1 := if !isNotExist st.1 then rn.2 else st.2
  let pre :=
    if !isNotExist st.1 then
      [Event.stat fname st.1, Event.rename fname (os.join dir (logName program tag t).1) rn.1]
    else [Event.stat fname st.1]
  let mk := os.mkdirAll dir w1
  match mk.1 with
  | some e => (.stop e mk.2, pre ++ [.mkdirAll dir (some e)])
  | none =>
    let op := os.openFile fname .createTrunc mk.2
    match op.1 with
    | .ok f =>
      let rm := os.remove (os.join dir link) op.2
      let sl := os.symlink name (os.join dir link) rm.2
      (.done f sl.2,
        pre ++ [.mkdirAll dir none, .openFile fname .createTrunc (.ok f),
          .remove (os.join dir link) rm.1, .symlink name (os.join dir link) sl.1])
    | .error e =>
      (.next e op.2, pre ++ [.mkdirAll dir none, .openFile fname .createTrunc (.error e)])

/-- The calls with which the body of the loop starts for the directory `d`: the `Stat`
of the file and, unless that reports that the file does not exist, the `Rename`. -/
def Probe (join : String → String → String) (name rot d : String) (evs : List Event) : Prop :=
  (∃ res, isNotExist res = true ∧ evs = [Event.stat (join d name) res]) ∨
  (∃ res res2, isNotExist res = false ∧
    evs = [Event.stat (join d name) res, Event.rename (join d name) (join d rot) res2])

/-- The logs that the loop of `create` can leave, with the result that goes with each. -/
inductive LoopRun (join : String → String → String) (name link rot : String) :
    List String → Option OsErr → List Event → CreateResult → Prop where
  | nil (lastErr : Option OsErr) :
    LoopRun join name link rot [] lastErr [] ⟨none, "", some (.cannotCreate lastErr)⟩
  | stop (d : String) (rest : List String) (lastErr : Option OsErr) (probe : List Event)
      (e : OsErr) (hp : Probe join name rot d probe) :
    LoopRun join name link rot (d :: rest) lastErr (probe ++ [Event.mkdirAll d (some e)])
      ⟨none, "", some (.cannotCreate (some e))⟩
  | done (d : String) (rest : List String) (lastErr : Option OsErr) (probe : List Event)
      (f : Handle) (x y : Option OsErr) (hp : Probe join name rot d probe) :
    LoopRun join name link rot (d :: rest) lastErr
      (probe ++ [Event.mkdirAll d none, Event.openFile (join d name) .createTrunc (.ok f),
        Event.remove (join d link) x, Event.symlink name (join d link) y])
      ⟨some f, join d name, none⟩
  | next (d : String) (rest : List String) (lastErr : Option OsErr) (probe : List Event)
      (e : OsErr) (tail : List Event) (r : CreateResult) (hp : Probe join name rot d probe)
      (ht : LoopRun join name link rot rest (some e) tail r) :
    LoopRun join name link rot (d :: rest) lastErr
      (probe ++ [Event.mkdirAll d none, Event.openFile (join d name) .createTrunc (.error e)]
        ++ tail) r

/-- The paths of the `Stat` calls of a log, in order. -/
def statPaths : List Event → List String
  | [] => []
  | .stat p _ :: evs => p :: statPaths evs
  | _ :: evs => statPaths evs

/-- Whether the event is a `MkdirAll` that returned an error. -/
def Event.isMkdirFail : Event → Bool
  | .mkdirAll _ (some _) => true
  | _ => false

/-- Whether the event is an `os.Create` (either outcome). -/
def Event.isCreate : Event → Bool
  | .openFile _ .createTrunc _ => true
  | _ => false

/-- The candidate directories that `create` and `openFile` use when called in the
package state `g`. -/
def candidates (cfg : Config) (g : Globals) : List String :=
  (onceDo (createLogDirs cfg) g).logDirs

/-- The calls that `create` makes, oldest first. -/
def createLog {W : Type} (cfg : Config) (os : OS W) (tag : String) (t : Time)
    (g : Globals) (w : W) : List Event :=
  (create cfg (traced os) tag t g (w, [])).2.2.2

/-- The file system in memory with nothing but a regular file at `/data`. -/
def fsDataFile : MemFS := MemFS.empty.set "/data" (some (.file 7 "x"))

/-- The calls that `openFile` makes, oldest first. -/
def openLog {W : Type} (cfg : Config) (os : OS W) (tag : String) (g : Globals) (w : W) :
    List Event :=
  (openFile cfg (traced os) tag g (w, [])).2.2.2

/-- The test of `openFile` for the directory `d` in the world `w` (line 167): `Stat` of
the file `name` in `d` did not answer that the file does not exist. The test also
passes when `Stat` fails in another way. -/
def statFinds {W : Type} (os : OS W) (name : String) (w : W) (d : String) : Prop :=
  isNotExist (os.stat (os.join d name) w).1 = false

/-- In the world `w`, opening the file `name` of the directory `d` read-write gives the
file `f`. -/
def opens {W : Type} (os : OS W) (name : String) (w : W) (d : String) (f : Handle) : Prop :=
  (os.openFile (os.join d name) .rdwr w).1 = .ok f

/-- The file system in memory with nothing but `/tmp` and in it the log file of the tag
`INFO`. -/
def fsLogFile : MemFS :=
  (MemFS.empty.set "/tmp" (some .dir)).set "/tmp/myprog.INFO" (some (.file 3 "line"))

/-- What a path names in a file system, as far as `create` is concerned: the regular
file with a given identity, a link or a directory. -/
inductive Entry where
  | file (f : Handle)
  | link
  | dir
deriving DecidableEq, Repr

/-- The entry that a path names in the file system in memory. -/
def memEntry (fs : MemFS) (path : String) : Option Entry :=
  match fs.nodes path with
  | some (.file i _) => some (.file i)
  | some (.link _) => some .link
  | some .dir => some .dir
  | none => none

theorem stringsIndex_split (c : Char) (l : List Char) :
    (c ∉ l ∧ stringsIndex l c = -1) ∨
    (∃ pre post, l = pre ++ c :: post ∧ c ∉ pre ∧ stringsIndex l c = (pre.length : Int)) := by
  induction l with
  | nil => left; simp [stringsIndex]
  | cons x xs ih =>
    by_cases hx : x = c
    · right
      refine ⟨[], xs, by simp [hx], by simp, by simp [stringsIndex, hx]⟩
    · rcases ih with ⟨hnot, hidx⟩ | ⟨pre, post, hl, hpre, hidx⟩
      · left
        refine ⟨by simp [hnot, Ne.symm hx], ?_⟩
        simp [stringsIndex, hx, hidx]
      · right
        refine ⟨x :: pre, post, by simp [hl], by simp [hpre, Ne.symm hx], ?_⟩
        simp only [stringsIndex, hx, if_false, hidx, List.length_cons]
        have : (0 : Int) ≤ (pre.length : Int) := Int.ofNat_nonneg _
        simp [this]

theorem shortHostname_of_split (hostname : String) (pre post : List Char)
    (hl : hostname.data = pre ++ '.' :: post)
    (hidx : stringsIndex hostname.data '.' = (pre.length : Int)) :
    shortHostname hostname = String.mk pre := by
  have h0 : (0 : Int) ≤ (pre.length : Int) := Int.ofNat_nonneg _
  simp only [shortHostname, hidx, ge_iff_le, h0, if_true, Int.toNat_ofNat]
  rw [hl]
  simp

/-- C10: `shortHostname` returns the prefix of its argument that ends just before the
first period: the result has no period, it is the argument itself when that has no
period, and otherwise the argument is the result, a period and a remainder; for
"www.google.com" it is "www". -/
theorem shortHostname_truncates_at_first_period (hostname : String) :
    '.' ∉ (shortHostname hostname).data ∧
    ('.' ∉ hostname.data → shortHostname hostname = hostname) ∧
    ('.' ∈ hostname.data →
      ∃ rest : String, hostname = shortHostname hostname ++ "." ++ rest) ∧
    shortHostname "www.google.com" = "www" := by
  refine ⟨?_, ?_, ?_, by decide⟩
  · rcases stringsIndex_split '.' hostname.data with ⟨hnot, hidx⟩ | ⟨pre, post, hl, hpre, hidx⟩
    · simpa [shortHostname, hidx] using hnot
    · rw [shortHostname_of_split hostname pre post hl hidx]
      exact hpre
  · intro hnot
    rcases stringsIndex_split '.' hostname.data with ⟨_, hidx⟩ | ⟨pre, post, hl, _, _⟩
    · simp [shortHostname, hidx]
    · exact absurd (by simp [hl]) hnot
  · intro hmem
    rcases stringsIndex_split '.' hostname.data with ⟨hnot, _⟩ | ⟨pre, post, hl, hpre, hidx⟩
    · exact absurd hmem hnot
    · refine ⟨String.mk post, ?_⟩
      rw [shortHostname_of_split hostname pre post hl hidx]
      apply String.ext
      simp [hl]

/-! ## Theorems: the name without a time stamp -/

/-- C4: `logInitName` returns the file name `program.tag` and the link base `tag`, a
pair computed from the program name and the tag alone (the function takes no time
and reads no state, so equal tags give equal pairs), and the file name differs from
the link base. -/
theorem logInitName_stable (program tag : String) :
    logInitName program tag = (program ++ "." ++ tag, tag) ∧
    (logInitName program tag).1 ≠ (logInitName program tag).2 := by
  refine ⟨rfl, ?_⟩
  intro h
  have hlen := congrArg String.length h
  simp only [logInitName, String.length_append] at hlen
  have : ".".length = 1 := by decide
  omega

/-! ## Theorems: the candidate directories -/

theorem createLogDirs_logDirs (cfg : Config) (g : Globals) :
    (createLogDirs cfg g).logDirs = g.logDirs ++ [chosenDir cfg] := by
  unfold createLogDirs chosenDir
  split <;> rfl

theorem onceDo_initial (cfg : Config) :
    onceDo (createLogDirs cfg) Globals.initial = ⟨[chosenDir cfg], true⟩ := by
  have h := createLogDirs_logDirs cfg Globals.initial
  simp only [onceDo, Globals.initial, Bool.false_eq_true, if_false] at h ⊢
  rw [h]
  rfl

theorem onceDo_done (f : Globals → Globals) (g : Globals) : (onceDo f g).onceLogDirs = true := by
  unfold onceDo
  split
  · assumption
  · rfl

theorem onceDo_onceDo (f : Globals → Globals) (g : Globals) :
    onceDo f (onceDo f g) = onceDo f g := by
  have h := onceDo_done f g
  generalize onceDo f g = g1 at h
  simp [onceDo, h]

theorem onceDo_iterate (f : Globals → Globals) (g : Globals) (n : Nat) :
    (onceDo f)^[n + 1] g = onceDo f g := by
  induction n with
  | zero => rfl
  | succ k ih =>
    rw [Function.iterate_succ_apply', ih, onceDo_onceDo]

theorem create_globals {W : Type} (cfg : Config) (os : OS W) (tag : String) (t : Time)
    (g : Globals) (w : W) :
    (create cfg os tag t g w).2.1 = onceDo (createLogDirs cfg) g := by
  unfold create
  simp only
  split <;> rfl

theorem openFile_globals {W : Type} (cfg : Config) (os : OS W) (tag : String)
    (g : Globals) (w : W) :
    (openFile cfg os tag g w).2.1 = onceDo (createLogDirs cfg) g := by
  unfold openFile
  simp only
  split <;> rfl

theorem createLoop_err_ne_noLogDirs {W : Type} (os : OS W) (program tag : String) (t : Time)
    (name link : String) (dirs : List String) (lastErr : Option OsErr) (w : W) :
    (createLoop os program tag t name link dirs lastErr w).1.err ≠ some .noLogDirs := by
  induction dirs generalizing lastErr w with
  | nil => simp [createLoop]
  | cons d rest ih =>
    simp only [createLoop]
    split
    · simp
    · split
      · simp
      · exact ih _ _

theorem openLoop_err_ne_noLogDirs {W : Type} (os : OS W) (name : String)
    (dirs : List String) (lastErr : Option LogError) (w : W)
    (h : lastErr ≠ some .noLogDirs) :
    (openLoop os name dirs lastErr w).1.2 ≠ some .noLogDirs := by
  induction dirs generalizing lastErr w with
  | nil => simpa [openLoop] using h
  | cons d rest ih =>
    simp only [openLoop]
    split
    · split
      · simp
      · exact ih _ _ (by simp)
    · apply ih
      cases (os.stat (os.join d name) w).1 <;> simp

/-- C6: from the empty candidate list, `createLogDirs` leaves exactly one directory,
the override when that string is non-empty and the temporary directory otherwise; so
after resolution the list is not empty, and neither `create` nor `openFile` returns
the error "log: no log dirs", at the first call or at a later one. -/
theorem createLogDirs_sole_candidate (cfg : Config) :
    (createLogDirs cfg Globals.initial).logDirs =
      [if cfg.logDir ≠ "" then cfg.logDir else cfg.tempDir] ∧
    (onceDo (createLogDirs cfg) Globals.initial).logDirs =
      [if cfg.logDir ≠ "" then cfg.logDir else cfg.tempDir] ∧
    (onceDo (createLogDirs cfg) Globals.initial).logDirs ≠ [] ∧
    (∀ (W : Type) (os : OS W) (tag : String) (t : Time) (w : W),
      (create cfg os tag t Globals.initial w).1.err ≠ some .noLogDirs ∧
      (create cfg os tag t (onceDo (createLogDirs cfg) Globals.initial) w).1.err ≠
        some .noLogDirs) ∧
    (∀ (W : Type) (os : OS W) (tag : String) (w : W),
      (openFile cfg os tag Globals.initial w).1.2 ≠ some .noLogDirs ∧
      (openFile cfg os tag (onceDo (createLogDirs cfg) Globals.initial) w).1.2 ≠
        some .noLogDirs) := by
  have hg : ∀ g : Globals,
      g = Globals.initial ∨ g = onceDo (createLogDirs cfg) Globals.initial →
      onceDo (createLogDirs cfg) g = ⟨[chosenDir cfg], true⟩ := by
    intro g hg
    rcases hg with rfl | rfl
    · exact onceDo_initial cfg
    · rw [onceDo_onceDo, onceDo_initial]
  have hc : ∀ (W : Type) (os : OS W) (tag : String) (t : Time) (w : W) (g : Globals),
      g = Globals.initial ∨ g = onceDo (createLogDirs cfg) Globals.initial →
      (create cfg os tag t g w).1.err ≠ some .noLogDirs := by
    intro W os tag t w g h
    unfold create
    simp only [hg g h, List.length_singleton, one_ne_zero, if_false]
    exact createLoop_err_ne_noLogDirs _ _ _ _ _ _ _ _ _
  have ho : ∀ (W : Type) (os : OS W) (tag : String) (w : W) (g : Globals),
      g = Globals.initial ∨ g = onceDo (createLogDirs cfg) Globals.initial →
      (openFile cfg os tag g w).1.2 ≠ some .noLogDirs := by
    intro W os tag w g h
    unfold openFile
    simp only [hg g h, List.length_singleton, one_ne_zero, if_false]
    exact openLoop_err_ne_noLogDirs _ _ _ _ _ (by simp)
  refine ⟨?_, ?_, ?_, ?_, ?_⟩
  · rw [createLogDirs_logDirs]; rfl
  · rw [onceDo_initial]; rfl
  · rw [onceDo_initial]; simp
  · intro W os tag t w
    exact ⟨hc W os tag t w _ (Or.inl rfl), hc W os tag t w _ (Or.inr rfl)⟩
  · intro W os tag w
    exact ⟨ho W os tag w _ (Or.inl rfl), ho W os tag w _ (Or.inr rfl)⟩

/-- C7: directory resolution as `create` and `openFile` invoke it is idempotent: `n`
invocations in sequence, for `n ≥ 1`, leave the package state that the first one
leaves; from the initial state the list then has exactly one entry (nothing is
appended a second time), and `create` and `openFile` leave that same state. -/
theorem resolution_idempotent (cfg : Config) (g : Globals) (n : Nat) (hn : 1 ≤ n) :
    (onceDo (createLogDirs cfg))^[n] g = onceDo (createLogDirs cfg) g ∧
    ((onceDo (createLogDirs cfg))^[n] g).logDirs = (onceDo (createLogDirs cfg) g).logDirs ∧
    ((onceDo (createLogDirs cfg))^[n] Globals.initial).logDirs.length = 1 ∧
    (∀ (W : Type) (os : OS W) (tag : String) (t : Time) (w : W),
      (create cfg os tag t ((onceDo (createLogDirs cfg))^[n] g) w).2.1 =
        onceDo (createLogDirs cfg) g) ∧
    (∀ (W : Type) (os : OS W) (tag : String) (w : W),
      (openFile cfg os tag ((onceDo (createLogDirs cfg))^[n] g) w).2.1 =
        onceDo (createLogDirs cfg) g) := by
  obtain ⟨k, rfl⟩ : ∃ k, n = k + 1 := ⟨n - 1, by omega⟩
  refine ⟨onceDo_iterate _ g k, by rw [onceDo_iterate], ?_, ?_, ?_⟩
  · rw [onceDo_iterate, onceDo_initial]; rfl
  · intro W os tag t w
    rw [create_globals, onceDo_iterate, onceDo_onceDo]
  · intro W os tag w
    rw [openFile_globals, onceDo_iterate, onceDo_onceDo]

/-- C7 at three invocations from the initial state, with the temporary directory. -/
theorem resolution_idempotent_witness :
    (1 ≤ 3) ∧
    ((onceDo (createLogDirs ⟨"", "/tmp", "myprog"⟩))^[3] Globals.initial =
      onceDo (createLogDirs ⟨"", "/tmp", "myprog"⟩) Globals.initial) ∧
    ((onceDo (createLogDirs ⟨"", "/tmp", "myprog"⟩))^[3] Globals.initial).logDirs = ["/tmp"] :=
  ⟨by decide,
   (resolution_idempotent ⟨"", "/tmp", "myprog"⟩ Globals.initial 3 (by decide)).1,
   by decide⟩

/-! ## Theorems: the calls that `create` makes -/

theorem createLoop_cons {W : Type} (os : OS W) (program tag : String) (t : Time)
    (name link : String) (d : String) (rest : List String) (lastErr : Option OsErr) (w : W) :
    createLoop os program tag t name link (d :: rest) lastErr w =
      match (createStep os program tag t name link d w).1 with
      | .stop e w1 => (⟨none, "", some (.cannotCreate (some e))⟩, w1)
      | .done f w1 => (⟨some f, os.join d name, none⟩, w1)
      | .next e w1 => createLoop os program tag t name link rest (some e) w1 := by
  simp only [createLoop, createStep]
  rcases hmk : os.mkdirAll d _ with ⟨_ | e, w2⟩
  · simp only
    rcases hop : os.openFile (os.join d name) OpenMode.createTrunc w2 with ⟨_ | f, w3⟩ <;> simp
  · simp

theorem createLoop_traced_cons {W : Type} (os : OS W) (program tag : String) (t : Time)
    (name link : String) (d : String) (rest : List String) (lastErr : Option OsErr) (w : W)
    (log : List Event) :
    createLoop (traced os) program tag t name link (d :: rest) lastErr (w, log) =
      match createStep os program tag t name link d w with
      | (.stop e w1, evs) => (⟨none, "", some (.cannotCreate (some e))⟩, (w1, log ++ evs))
      | (.done f w1, evs) => (⟨some f, os.join d name, none⟩, (w1, log ++ evs))
      | (.next e w1, evs) =>
        createLoop (traced os) program tag t name link rest (some e) (w1, log ++ evs) := by
  simp only [createLoop, createStep, traced]
  by_cases hst : isNotExist (os.stat (os.join d name) w).1 = true
  · simp only [hst, Bool.not_true, Bool.false_eq_true, if_false]
    rcases hmk : os.mkdirAll d (os.stat (os.join d name) w).2 with ⟨_ | e, w2⟩
    · simp only
      rcases hop : os.openFile (os.join d name) OpenMode.createTrunc w2 with ⟨_ | f, w3⟩ <;>
        simp [List.append_assoc]
    · simp [List.append_assoc]
  · simp only [hst, Bool.not_false, if_true]
    rcases hmk : os.mkdirAll d (os.rename (os.join d name) (os.join d (logName program tag t).1)
        (os.stat (os.join d name) w).2).2 with ⟨_ | e, w2⟩
    · simp only
      rcases hop : os.openFile (os.join d name) OpenMode.createTrunc w2 with ⟨_ | f, w3⟩ <;>
        simp [List.append_assoc]
    · simp [List.append_assoc]

theorem createStep_shape {W : Type} (os : OS W) (program tag : String) (t : Time)
    (name link : String) (d : String) (w : W) :
    ∃ probe, Probe os.join name (logName program tag t).1 d probe ∧
      match createStep os program tag t name link d w with
      | (.stop e _, evs) => evs = probe ++ [Event.mkdirAll d (some e)]
      | (.done f _, evs) => ∃ x y, evs =
          probe ++ [Event.mkdirAll d none, Event.openFile (os.join d name) .createTrunc (.ok f),
            Event.remove (os.join d link) x, Event.symlink name (os.join d link) y]
      | (.next e _, evs) => evs =
          probe ++ [Event.mkdirAll d none, Event.openFile (os.join d name) .createTrunc (.error e)] := by
  simp only [createStep]
  by_cases hst : isNotExist (os.stat (os.join d name) w).1 = true
  · refine ⟨[Event.stat (os.join d name) (os.stat (os.join d name) w).1], Or.inl ⟨_, hst, rfl⟩, ?_⟩
    simp only [hst, Bool.not_true, Bool.false_eq_true, if_false]
    rcases hmk : (os.mkdirAll d (os.stat (os.join d name) w).2).1 with _ | e
    · simp only
      rcases hop : (os.openFile (os.join d name) OpenMode.createTrunc
          (os.mkdirAll d (os.stat (os.join d name) w).2).2).1 with _ | f
      · simp
      · exact ⟨_, _, rfl⟩
    · simp
  · have hst2 : isNotExist (os.stat (os.join d name) w).1 = false := by simpa using hst
    refine ⟨[Event.stat (os.join d name) (os.stat (os.join d name) w).1,
      Event.rename (os.join d name) (os.join d (logName program tag t).1)
        (os.rename (os.join d name) (os.join d (logName program tag t).1)
          (os.stat (os.join d name) w).2).1], Or.inr ⟨_, _, hst2, rfl⟩, ?_⟩
    simp only [hst2, Bool.not_false, if_true]
    rcases hmk : (os.mkdirAll d (os.rename (os.join d name) (os.join d (logName program tag t).1)
        (os.stat (os.join d name) w).2).2).1 with _ | e
    · simp only
      rcases hop : (os.openFile (os.join d name) OpenMode.createTrunc
          (os.mkdirAll d (os.rename (os.join d name) (os.join d (logName program tag t).1)
            (os.stat (os.join d name) w).2).2).2).1 with _ | f
      · simp
      · exact ⟨_, _, rfl⟩
    · simp

theorem createLoop_traced_run {W : Type} (os : OS W) (program tag : String) (t : Time)
    (name link : String) (dirs : List String) (lastErr : Option OsErr) (w : W)
    (log : List Event) :
    ∃ evs, (createLoop (traced os) program tag t name link dirs lastErr (w, log)).2.2 = log ++ evs ∧
      LoopRun os.join name link (logName program tag t).1 dirs lastErr evs
        (createLoop (traced os) program tag t name link dirs lastErr (w, log)).1 := by
  induction dirs generalizing lastErr w log with
  | nil => exact ⟨[], by simp [createLoop], LoopRun.nil lastErr⟩
  | cons d rest ih =>
    rw [createLoop_traced_cons]
    obtain ⟨probe, hp, hshape⟩ := createStep_shape os program tag t name link d w
    rcases hstep : createStep os program tag t name link d w with ⟨out, evs⟩
    rw [hstep] at hshape
    cases out with
    | stop e w1 =>
      simp only at hshape ⊢
      exact ⟨evs, rfl, hshape ▸ LoopRun.stop d rest lastErr probe e hp⟩
    | done f w1 =>
      simp only at hshape ⊢
      obtain ⟨x, y, hevs⟩ := hshape
      exact ⟨evs, rfl, hevs ▸ LoopRun.done d rest lastErr probe f x y hp⟩
    | next e w1 =>
      simp only at hshape ⊢
      obtain ⟨tail, hlog, hrun⟩ := ih (some e) w1 (log ++ evs)
      refine ⟨evs ++ tail, by rw [hlog, List.append_assoc], ?_⟩
      subst hshape
      exact LoopRun.next d rest lastErr probe e tail _ hp hrun

theorem createLoop_traced_result {W : Type} (os : OS W) (program tag : String) (t : Time)
    (name link : String) (dirs : List String) (lastErr : Option OsErr) (w : W)
    (log : List Event) :
    (createLoop (traced os) program tag t name link dirs lastErr (w, log)).1 =
      (createLoop os program tag t name link dirs lastErr w).1 ∧
    (createLoop (traced os) program tag t name link dirs lastErr (w, log)).2.1 =
      (createLoop os program tag t name link dirs lastErr w).2 := by
  induction dirs generalizing lastErr w log with
  | nil => simp [createLoop]
  | cons d rest ih =>
    rw [createLoop_traced_cons, createLoop_cons]
    rcases hstep : createStep os program tag t name link d w with ⟨out, evs⟩
    cases out with
    | stop e w1 => simp
    | done f w1 => simp
    | next e w1 => exact ih (some e) w1 (log ++ evs)

theorem statPaths_append (a b : List Event) : statPaths (a ++ b) = statPaths a ++ statPaths b := by
  induction a with
  | nil => rfl
  | cons x xs ih => cases x <;> simp [statPaths, ih]

theorem append_split {α : Type} (P : α → Bool) {A B pre post : List α} {ev : α}
    (hA : ∀ x ∈ A, P x = false) (hev : P ev = true) (h : A ++ B = pre ++ ev :: post) :
    ∃ pre2, pre = A ++ pre2 ∧ B = pre2 ++ ev :: post := by
  induction A generalizing pre with
  | nil => exact ⟨pre, rfl, h⟩
  | cons a as ih =>
    cases pre with
    | nil =>
      simp only [List.cons_append, List.nil_append, List.cons.injEq] at h
      have := hA a (by simp)
      rw [h.1, hev] at this
      cases this
    | cons q qs =>
      simp only [List.cons_append, List.cons.injEq] at h
      obtain ⟨pre2, h1, h2⟩ := ih (fun x hx => hA x (by simp [hx])) h.2
      exact ⟨pre2, by simp [h.1, h1], h2⟩

theorem not_mem_split {α : Type} (P : α → Bool) {l pre post : List α} {ev : α}
    (hl : ∀ x ∈ l, P x = false) (hev : P ev = true) (h : l = pre ++ ev :: post) : False := by
  have := hl ev (by simp [h])
  rw [hev] at this
  cases this

theorem Probe.isMkdirFail {join : String → String → String} {name rot d : String}
    {evs : List Event} (hp : Probe join name rot d evs) : ∀ x ∈ evs, x.isMkdirFail = false := by
  rcases hp with ⟨res, _, rfl⟩ | ⟨res, res2, _, rfl⟩ <;> simp [Event.isMkdirFail]

theorem Probe.isCreate {join : String → String → String} {name rot d : String}
    {evs : List Event} (hp : Probe join name rot d evs) : ∀ x ∈ evs, x.isCreate = false := by
  rcases hp with ⟨res, _, rfl⟩ | ⟨res, res2, _, rfl⟩ <;> simp [Event.isCreate]

theorem Probe.statPaths {join : String → String → String} {name rot d : String}
    {evs : List Event} (hp : Probe join name rot d evs) : statPaths evs = [join d name] := by
  rcases hp with ⟨res, _, rfl⟩ | ⟨res, res2, _, rfl⟩ <;> simp [Glog.statPaths]

theorem Probe.head {join : String → String → String} {name rot d : String}
    {evs : List Event} (hp : Probe join name rot d evs) :
    ∃ res rest, evs = Event.stat (join d name) res :: rest := by
  rcases hp with ⟨res, _, rfl⟩ | ⟨res, res2, _, rfl⟩
  · exact ⟨res, [], rfl⟩
  · exact ⟨res, _, rfl⟩

/-- A failed `MkdirAll` is the last call, directly after the probe of its directory,
and its error is the one wrapped in the result. -/
theorem LoopRun.mkdir_fail_stops {join : String → String → String} {name link rot : String}
    {dirs : List String} {lastErr : Option OsErr} {evs : List Event} {r : CreateResult}
    (run : LoopRun join name link rot dirs lastErr evs r) :
    ∀ pre post d e, evs = pre ++ Event.mkdirAll d (some e) :: post →
      post = [] ∧ r = ⟨none, "", some (.cannotCreate (some e))⟩ ∧
      ∃ pre0 probe, pre = pre0 ++ probe ∧ Probe join name rot d probe := by
  induction run with
  | nil lastErr => intro pre post d e h; simp at h
  | stop d0 rest lastErr probe e0 hp =>
    intro pre post d e h
    obtain ⟨pre2, h1, h2⟩ := append_split Event.isMkdirFail hp.isMkdirFail
      (by simp [Event.isMkdirFail]) h
    cases pre2 with
    | nil =>
      simp only [List.nil_append, List.cons.injEq, Event.mkdirAll.injEq, Option.some.injEq] at h2
      obtain ⟨⟨rfl, rfl⟩, rfl⟩ := h2
      exact ⟨rfl, rfl, [], probe, by simp [h1], hp⟩
    | cons q qs =>
      simp only [List.cons_append, List.cons.injEq] at h2
      have := h2.2
      simp at this
  | done d0 rest lastErr probe f x y hp =>
    intro pre post d e h
    exfalso
    refine not_mem_split Event.isMkdirFail ?_ (by simp [Event.isMkdirFail]) h
    intro ev hev
    rcases List.mem_append.1 hev with h1 | h1
    · exact hp.isMkdirFail ev h1
    · simp at h1
      rcases h1 with rfl | rfl | rfl | rfl <;> rfl
  | next d0 rest lastErr probe e0 tail r hp ht ih =>
    intro pre post d e h
    have hA : ∀ x ∈ probe ++ [Event.mkdirAll d0 none,
        Event.openFile (join d0 name) .createTrunc (.error e0)], x.isMkdirFail = false := by
      intro ev hev
      rcases List.mem_append.1 hev with h1 | h1
      · exact hp.isMkdirFail ev h1
      · simp at h1
        rcases h1 with rfl | rfl <;> rfl
    obtain ⟨pre2, h1, h2⟩ := append_split Event.isMkdirFail hA (by simp [Event.isMkdirFail]) h
    obtain ⟨hpost, hr, pre0, probe2, hpre, hp2⟩ := ih pre2 post d e h2
    refine ⟨hpost, hr, (probe ++ [Event.mkdirAll d0 none,
      Event.openFile (join d0 name) .createTrunc (.error e0)]) ++ pre0, probe2, ?_, hp2⟩
    rw [h1, hpre]
    simp only [List.append_assoc]

/-- The files are probed in the order of the candidate list. -/
theorem LoopRun.statPaths_in_order {join : String → String → String} {name link rot : String}
    {dirs : List String} {lastErr : Option OsErr} {evs : List Event} {r : CreateResult}
    (run : LoopRun join name link rot dirs lastErr evs r) :
    statPaths evs <+: dirs.map (fun d => join d name) := by
  induction run with
  | nil lastErr => simp [statPaths]
  | stop d0 rest lastErr probe e0 hp =>
    simp [statPaths_append, hp.statPaths, statPaths, List.prefix_cons_inj]
  | done d0 rest lastErr probe f x y hp =>
    simp [statPaths_append, hp.statPaths, statPaths, List.prefix_cons_inj]
  | next d0 rest lastErr probe e0 tail r hp ht ih =>
    simp only [statPaths_append, hp.statPaths, statPaths, List.append_nil, List.map_cons,
      List.singleton_append]
    exact (List.prefix_cons_inj _).2 ih

theorem LoopRun.head_stat {join : String → String → String} {name link rot : String}
    {d : String} {rest : List String} {lastErr : Option OsErr} {evs : List Event}
    {r : CreateResult} (run : LoopRun join name link rot (d :: rest) lastErr evs r) :
    ∃ res post, evs = Event.stat (join d name) res :: post := by
  cases run with
  | stop _ _ _ probe e hp =>
    obtain ⟨res, tl, rfl⟩ := hp.head
    exact ⟨res, _, rfl⟩
  | done _ _ _ probe f x y hp =>
    obtain ⟨res, tl, rfl⟩ := hp.head
    exact ⟨res, _, rfl⟩
  | next _ _ _ probe e tail _ hp ht =>
    obtain ⟨res, tl, rfl⟩ := hp.head
    exact ⟨res, _, rfl⟩

theorem probe_mkdir_isCreate {join : String → String → String} {name rot d : String}
    {probe : List Event} (hp : Probe join name rot d probe) :
    ∀ x ∈ probe ++ [Event.mkdirAll d none], x.isCreate = false := by
  intro ev hev
  rcases List.mem_append.1 hev with h1 | h1
  · exact hp.isCreate ev h1
  · simp at h1
    subst h1
    rfl

/-- After a failed `os.Create` the loop goes on with the `Stat` of the next candidate;
when there is none, every candidate has been probed and the error of that call is the
one wrapped in the result. -/
theorem LoopRun.create_fail_continues {join : String → String → String}
    {name link rot : String} {dirs : List String} {lastErr : Option OsErr}
    {evs : List Event} {r : CreateResult}
    (run : LoopRun join name link rot dirs lastErr evs r) :
    ∀ pre post p e, evs = pre ++ Event.openFile p .createTrunc (.error e) :: post →
      (∃ d, d ∈ dirs ∧ p = join d name) ∧
      ((∃ p2 res post2, post = Event.stat p2 res :: post2) ∨
       (post = [] ∧ statPaths evs = dirs.map (fun d => join d name) ∧
        r = ⟨none, "", some (.cannotCreate (some e))⟩)) := by
  induction run with
  | nil lastErr => intro pre post p e h; simp at h
  | stop d0 rest lastErr probe e0 hp =>
    intro pre post p e h
    exfalso
    refine not_mem_split Event.isCreate ?_ (by simp [Event.isCreate]) h
    intro ev hev
    rcases List.mem_append.1 hev with h1 | h1
    · exact hp.isCreate ev h1
    · simp at h1
      subst h1
      rfl
  | done d0 rest lastErr probe f x y hp =>
    intro pre post p e h
    exfalso
    have h2 : (probe ++ [Event.mkdirAll d0 none]) ++
        (Event.openFile (join d0 name) .createTrunc (.ok f) ::
          [Event.remove (join d0 link) x, Event.symlink name (join d0 link) y]) =
        pre ++ Event.openFile p .createTrunc (.error e) :: post := by
      rw [← h]; simp
    obtain ⟨pre2, _, h4⟩ := append_split Event.isCreate (probe_mkdir_isCreate hp)
      (by simp [Event.isCreate]) h2
    cases pre2 with
    | nil => simp at h4
    | cons q qs =>
      simp only [List.cons_append, List.cons.injEq] at h4
      refine not_mem_split Event.isCreate ?_ (by simp [Event.isCreate]) h4.2
      intro ev hev
      simp at hev
      rcases hev with rfl | rfl <;> rfl
  | next d0 rest lastErr probe e0 tail r hp ht ih =>
    intro pre post p e h
    have h2 : (probe ++ [Event.mkdirAll d0 none]) ++
        (Event.openFile (join d0 name) .createTrunc (.error e0) :: tail) =
        pre ++ Event.openFile p .createTrunc (.error e) :: post := by
      rw [← h]; simp
    obtain ⟨pre2, _, h4⟩ := append_split Event.isCreate (probe_mkdir_isCreate hp)
      (by simp [Event.isCreate]) h2
    cases pre2 with
    | nil =>
      simp only [List.nil_append, List.cons.injEq, Event.openFile.injEq, true_and,
        Except.error.injEq] at h4
      obtain ⟨⟨rfl, rfl⟩, rfl⟩ := h4
      refine ⟨⟨d0, by simp, rfl⟩, ?_⟩
      cases rest with
      | nil =>
        right
        cases ht
        simp [statPaths_append, hp.statPaths, statPaths]
      | cons d1 rest1 =>
        left
        obtain ⟨res, post2, h5⟩ := ht.head_stat
        exact ⟨_, res, post2, h5⟩
    | cons q qs =>
      simp only [List.cons_append, List.cons.injEq] at h4
      obtain ⟨⟨d, hd, hpd⟩, hrest⟩ := ih qs post p e h4.2
      refine ⟨⟨d, by simp [hd], hpd⟩, ?_⟩
      rcases hrest with hl | ⟨hpost, hsp, hr⟩
      · exact Or.inl hl
      · right
        refine ⟨hpost, ?_, hr⟩
        simp [statPaths_append, hp.statPaths, statPaths, hsp]

/-- When the loop returns no file, it returns no name either, and the error wraps the
error of the last call, which is a failed `MkdirAll` or a failed `os.Create`. -/
theorem LoopRun.failure_wraps_last {join : String → String → String}
    {name link rot : String} {dirs : List String} {lastErr : Option OsErr}
    {evs : List Event} {r : CreateResult}
    (run : LoopRun join name link rot dirs lastErr evs r) (hf : r.f = none) :
    (dirs = [] ∧ evs = [] ∧ r = ⟨none, "", some (.cannotCreate lastErr)⟩) ∨
    ∃ e pre, r = ⟨none, "", some (.cannotCreate (some e))⟩ ∧
      ((∃ d, d ∈ dirs ∧ evs = pre ++ [Event.mkdirAll d (some e)]) ∨
       (∃ d, d ∈ dirs ∧ evs = pre ++ [Event.openFile (join d name) .createTrunc (.error e)])) := by
  induction run with
  | nil lastErr => left; exact ⟨rfl, rfl, rfl⟩
  | stop d0 rest lastErr probe e0 hp =>
    right
    exact ⟨e0, probe, rfl, Or.inl ⟨d0, by simp, rfl⟩⟩
  | done d0 rest lastErr probe f x y hp => simp at hf
  | next d0 rest lastErr probe e0 tail r hp ht ih =>
    right
    rcases ih hf with ⟨_, htail, hr⟩ | ⟨e, pre, hr, hlast⟩
    · refine ⟨e0, probe ++ [Event.mkdirAll d0 none], hr, Or.inr ⟨d0, by simp, ?_⟩⟩
      rw [htail]
      simp
    · refine ⟨e, (probe ++ [Event.mkdirAll d0 none,
        Event.openFile (join d0 name) .createTrunc (.error e0)]) ++ pre, hr, ?_⟩
      rcases hlast with ⟨d, hd, hevs⟩ | ⟨d, hd, hevs⟩
      · exact Or.inl ⟨d, by simp [hd], by rw [hevs]; simp only [List.append_assoc]⟩
      · exact Or.inr ⟨d, by simp [hd], by rw [hevs]; simp only [List.append_assoc]⟩

/-- A successful `os.Create` is followed by the `Remove` and the `Symlink` at the link
path of its directory and by nothing else, and the file and its name are returned
whatever these two calls return. -/
theorem LoopRun.create_ok_links {join : String → String → String}
    {name link rot : String} {dirs : List String} {lastErr : Option OsErr}
    {evs : List Event} {r : CreateResult}
    (run : LoopRun join name link rot dirs lastErr evs r) :
    ∀ pre post p f, evs = pre ++ Event.openFile p .createTrunc (.ok f) :: post →
      ∃ d x y, d ∈ dirs ∧ p = join d name ∧
        post = [Event.remove (join d link) x, Event.symlink name (join d link) y] ∧
        r = ⟨some f, p, none⟩ := by
  induction run with
  | nil lastErr => intro pre post p f h; simp at h
  | stop d0 rest lastErr probe e0 hp =>
    intro pre post p f h
    exfalso
    refine not_mem_split Event.isCreate ?_ (by simp [Event.isCreate]) h
    intro ev hev
    rcases List.mem_append.1 hev with h1 | h1
    · exact hp.isCreate ev h1
    · simp at h1
      subst h1
      rfl
  | done d0 rest lastErr probe f0 x y hp =>
    intro pre post p f h
    have h2 : (probe ++ [Event.mkdirAll d0 none]) ++
        (Event.openFile (join d0 name) .createTrunc (.ok f0) ::
          [Event.remove (join d0 link) x, Event.symlink name (join d0 link) y]) =
        pre ++ Event.openFile p .createTrunc (.ok f) :: post := by
      rw [← h]; simp
    obtain ⟨pre2, _, h4⟩ := append_split Event.isCreate (probe_mkdir_isCreate hp)
      (by simp [Event.isCreate]) h2
    cases pre2 with
    | nil =>
      simp only [List.nil_append, List.cons.injEq, Event.openFile.injEq, true_and,
        Except.ok.injEq] at h4
      obtain ⟨⟨rfl, rfl⟩, rfl⟩ := h4
      exact ⟨d0, x, y, by simp, rfl, rfl, rfl⟩
    | cons q qs =>
      exfalso
      simp only [List.cons_append, List.cons.injEq] at h4
      refine not_mem_split Event.isCreate ?_ (by simp [Event.isCreate]) h4.2
      intro ev hev
      simp at hev
      rcases hev with rfl | rfl <;> rfl
  | next d0 rest lastErr probe e0 tail r hp ht ih =>
    intro pre post p f h
    have h2 : (probe ++ [Event.mkdirAll d0 none]) ++
        (Event.openFile (join d0 name) .createTrunc (.error e0) :: tail) =
        pre ++ Event.openFile p .createTrunc (.ok f) :: post := by
      rw [← h]; simp
    obtain ⟨pre2, _, h4⟩ := append_split Event.isCreate (probe_mkdir_isCreate hp)
      (by simp [Event.isCreate]) h2
    cases pre2 with
    | nil => simp at h4
    | cons q qs =>
      simp only [List.cons_append, List.cons.injEq] at h4
      obtain ⟨d, x, y, hd, hrest⟩ := ih qs post p f h4.2
      exact ⟨d, x, y, by simp [hd], hrest⟩

/-- When the loop returns a file, a successful `os.Create` was made, followed by the
`Remove` and the `Symlink`, which end the log. -/
theorem LoopRun.success_has_create {join : String → String → String}
    {name link rot : String} {dirs : List String} {lastErr : Option OsErr}
    {evs : List Event} {r : CreateResult}
    (run : LoopRun join name link rot dirs lastErr evs r) (f : Handle) (hf : r.f = some f) :
    ∃ pre d x y, d ∈ dirs ∧
      evs = pre ++ [Event.openFile (join d name) .createTrunc (.ok f),
        Event.remove (join d link) x, Event.symlink name (join d link) y] ∧
      r = ⟨some f, join d name, none⟩ := by
  induction run with
  | nil lastErr => simp at hf
  | stop d0 rest lastErr probe e0 hp => simp at hf
  | done d0 rest lastErr probe f0 x y hp =>
    simp only [Option.some.injEq] at hf
    subst hf
    exact ⟨probe ++ [Event.mkdirAll d0 none], d0, x, y, by simp, by simp, rfl⟩
  | next d0 rest lastErr probe e0 tail r hp ht ih =>
    obtain ⟨pre, d, x, y, hd, hevs, hr⟩ := ih hf
    refine ⟨(probe ++ [Event.mkdirAll d0 none,
      Event.openFile (join d0 name) .createTrunc (.error e0)]) ++ pre, d, x, y, by simp [hd], ?_, hr⟩
    rw [hevs]
    simp only [List.append_assoc]

theorem create_traced_result {W : Type} (cfg : Config) (os : OS W) (tag : String) (t : Time)
    (g : Globals) (w : W) :
    (create cfg (traced os) tag t g (w, [])).1 = (create cfg os tag t g w).1 := by
  unfold create
  simp only
  split
  · rfl
  · exact (createLoop_traced_result os _ _ _ _ _ _ _ _ _).1

theorem create_run {W : Type} (cfg : Config) (os : OS W) (tag : String) (t : Time)
    (g : Globals) (w : W) :
    (candidates cfg g = [] ∧ createLog cfg os tag t g w = [] ∧
      (create cfg os tag t g w).1 = ⟨none, "", some .noLogDirs⟩) ∨
    (candidates cfg g ≠ [] ∧
      LoopRun os.join (cfg.program ++ "." ++ tag) tag (logName cfg.program tag t).1
        (candidates cfg g) none (createLog cfg os tag t g w) (create cfg os tag t g w).1) := by
  rw [← create_traced_result]
  unfold createLog create candidates
  simp only
  by_cases h : (onceDo (createLogDirs cfg) g).logDirs = []
  · left
    simp [h]
  · right
    refine ⟨h, ?_⟩
    have hlen : ¬ (onceDo (createLogDirs cfg) g).logDirs.length = 0 := by
      simpa [List.length_eq_zero] using h
    simp only [hlen, if_false]
    obtain ⟨evs, hlog, hrun⟩ := createLoop_traced_run os cfg.program tag t
      (logInitName cfg.program tag).1 (logInitName cfg.program tag).2
      (onceDo (createLogDirs cfg) g).logDirs none w []
    rw [hlog]
    simpa [logInitName] using hrun

/-- C8: for every candidate list: a failed `MkdirAll` is the last call that `create`
makes (before it, for that directory, only the `Stat` and the `Rename` were made, so
no file is created there or in a later candidate), and `create` then returns no file,
no name and the error wrapping that error; a failed `os.Create` is followed by the
`Stat` of the next candidate, and when there is none every candidate has been probed;
and whenever no candidate succeeds the error wraps the error of the last call. -/
theorem create_failure_handling {W : Type} (cfg : Config) (os : OS W) (tag : String)
    (t : Time) (g : Globals) (w : W) :
    (∀ pre post d e,
      createLog cfg os tag t g w = pre ++ Event.mkdirAll d (some e) :: post →
      post = [] ∧
      (create cfg os tag t g w).1 = ⟨none, "", some (.cannotCreate (some e))⟩ ∧
      ∃ pre0 probe, pre = pre0 ++ probe ∧
        Probe os.join (cfg.program ++ "." ++ tag) (logName cfg.program tag t).1 d probe) ∧
    statPaths (createLog cfg os tag t g w) <+:
      (candidates cfg g).map (fun d => os.join d (cfg.program ++ "." ++ tag)) ∧
    (∀ pre post p e,
      createLog cfg os tag t g w = pre ++ Event.openFile p .createTrunc (.error e) :: post →
      (∃ d, d ∈ candidates cfg g ∧ p = os.join d (cfg.program ++ "." ++ tag)) ∧
      ((∃ p2 res post2, post = Event.stat p2 res :: post2) ∨
       (post = [] ∧
        statPaths (createLog cfg os tag t g w) =
          (candidates cfg g).map (fun d => os.join d (cfg.program ++ "." ++ tag)) ∧
        (create cfg os tag t g w).1 = ⟨none, "", some (.cannotCreate (some e))⟩))) ∧
    ((create cfg os tag t g w).1.f = none → candidates cfg g ≠ [] →
      ∃ e pre, (create cfg os tag t g w).1 = ⟨none, "", some (.cannotCreate (some e))⟩ ∧
        ((∃ d, d ∈ candidates cfg g ∧
            createLog cfg os tag t g w = pre ++ [Event.mkdirAll d (some e)]) ∨
         (∃ d, d ∈ candidates cfg g ∧
            createLog cfg os tag t g w =
              pre ++ [Event.openFile (os.join d (cfg.program ++ "." ++ tag)) .createTrunc
                (.error e)]))) := by
  rcases create_run cfg os tag t g w with ⟨hc, hlog, hr⟩ | ⟨hc, hrun⟩
  · refine ⟨?_, ?_, ?_, ?_⟩
    · intro pre post d e h
      rw [hlog] at h
      simp at h
    · rw [hlog]
      simp [statPaths]
    · intro pre post p e h
      rw [hlog] at h
      simp at h
    · intro _ hne
      exact absurd hc hne
  · refine ⟨hrun.mkdir_fail_stops, hrun.statPaths_in_order, hrun.create_fail_continues, ?_⟩
    intro hf _
    rcases hrun.failure_wraps_last hf with ⟨h0, _, _⟩ | h
    · exact absurd h0 hc
    · exact h

/-- C8 on the file system in memory: with the candidates `/data` (a regular file) and
`/b`, `Stat` and `Rename` below `/data` fail, `MkdirAll` fails for `/data`, and
`create` stops there. -/
theorem create_failure_handling_witness :
    createLog ⟨"", "/tmp", "myprog"⟩ (memOS pathJoin) "INFO" ⟨0, 0, 0⟩ ⟨["/data", "/b"], true⟩
      fsDataFile =
      [Event.stat "/data/myprog.INFO" (some .notDir),
        Event.rename "/data/myprog.INFO" "/data/myprog.INFO.19700101-000000" (some .notDir)] ++
        Event.mkdirAll "/data" (some .notDir) :: [] ∧
    (create ⟨"", "/tmp", "myprog"⟩ (memOS pathJoin) "INFO" ⟨0, 0, 0⟩ ⟨["/data", "/b"], true⟩
      fsDataFile).1 = ⟨none, "", some (.cannotCreate (some .notDir))⟩ :=
  ⟨by decide,
   ((create_failure_handling ⟨"", "/tmp", "myprog"⟩ (memOS pathJoin) "INFO" ⟨0, 0, 0⟩
      ⟨["/data", "/b"], true⟩ fsDataFile).1
      [Event.stat "/data/myprog.INFO" (some .notDir),
        Event.rename "/data/myprog.INFO" "/data/myprog.INFO.19700101-000000" (some .notDir)] []
      "/data" .notDir (by decide)).2.1⟩

/-- C2, as the code has it: whenever `os.Create` succeeds for a candidate directory
`d`, the next and last two calls of `create` are the `Remove` of the path `d/<tag>` and
the `Symlink` at that same path `d/<tag>` with the target `<program>.<tag>`, and
`create` returns the file and the name `d/<program>.<tag>` with a nil error whatever
these two calls return; and `create` returns a file only in this way. -/
theorem create_updates_symlink {W : Type} (cfg : Config) (os : OS W) (tag : String)
    (t : Time) (g : Globals) (w : W) :
    (∀ pre post p f,
      createLog cfg os tag t g w = pre ++ Event.openFile p .createTrunc (.ok f) :: post →
      ∃ d x y, d ∈ candidates cfg g ∧ p = os.join d (cfg.program ++ "." ++ tag) ∧
        post = [Event.remove (os.join d tag) x,
          Event.symlink (cfg.program ++ "." ++ tag) (os.join d tag) y] ∧
        (create cfg os tag t g w).1 = ⟨some f, p, none⟩) ∧
    (∀ f, (create cfg os tag t g w).1.f = some f →
      ∃ pre d x y, d ∈ candidates cfg g ∧
        createLog cfg os tag t g w =
          pre ++ [Event.openFile (os.join d (cfg.program ++ "." ++ tag)) .createTrunc (.ok f),
            Event.remove (os.join d tag) x,
            Event.symlink (cfg.program ++ "." ++ tag) (os.join d tag) y] ∧
        (create cfg os tag t g w).1 = ⟨some f, os.join d (cfg.program ++ "." ++ tag), none⟩) := by
  rcases create_run cfg os tag t g w with ⟨hc, hlog, hr⟩ | ⟨hc, hrun⟩
  · refine ⟨?_, ?_⟩
    · intro pre post p f h
      rw [hlog] at h
      simp at h
    · intro f hf
      rw [hr] at hf
      simp at hf
  · exact ⟨hrun.create_ok_links, hrun.success_has_create⟩

/-- C2 on the file system in memory, at the first call of a program `myprog` with the
tag `INFO` and the temporary directory `/tmp`. -/
theorem create_updates_symlink_witness :
    createLog ⟨"", "/tmp", "myprog"⟩ (memOS pathJoin) "INFO" ⟨1704103200, 0, 0⟩
      Globals.initial MemFS.empty =
      [Event.stat "/tmp/myprog.INFO" (some .notExist), Event.mkdirAll "/tmp" none] ++
        Event.openFile "/tmp/myprog.INFO" .createTrunc (.ok 0) ::
          [Event.remove "/tmp/INFO" (some .notExist),
           Event.symlink "myprog.INFO" "/tmp/INFO" none] ∧
    (create ⟨"", "/tmp", "myprog"⟩ (memOS pathJoin) "INFO" ⟨1704103200, 0, 0⟩
      Globals.initial MemFS.empty).1 = ⟨some 0, "/tmp/myprog.INFO", none⟩ :=
  ⟨by decide, by
    obtain ⟨d, x, y, _, _, _, hr⟩ :=
      (create_updates_symlink ⟨"", "/tmp", "myprog"⟩ (memOS pathJoin) "INFO"
        ⟨1704103200, 0, 0⟩ Globals.initial MemFS.empty).1
        [Event.stat "/tmp/myprog.INFO" (some .notExist), Event.mkdirAll "/tmp" none]
        [Event.remove "/tmp/INFO" (some .notExist), Event.symlink "myprog.INFO" "/tmp/INFO" none]
        "/tmp/myprog.INFO" 0 (by decide)
    exact hr⟩

/-- C2 as stated fails: at the first call of `myprog` with the tag `INFO` in `/tmp`,
`create` succeeds in `/tmp`, and the path `/tmp/myprog.INFO` (`dir/<program>.<tag>`) is
neither removed nor given a symlink: the `Remove` and the `Symlink` are made at
`/tmp/INFO`, and `/tmp/myprog.INFO` holds the new regular file. -/
theorem create_symlink_path_counterexample :
    (create ⟨"", "/tmp", "myprog"⟩ (memOS pathJoin) "INFO" ⟨1704103200, 0, 0⟩
      Globals.initial MemFS.empty).1 = ⟨some 0, "/tmp/myprog.INFO", none⟩ ∧
    pathJoin "/tmp" ("myprog" ++ "." ++ "INFO") = "/tmp/myprog.INFO" ∧
    createLog ⟨"", "/tmp", "myprog"⟩ (memOS pathJoin) "INFO" ⟨1704103200, 0, 0⟩
      Globals.initial MemFS.empty =
      [Event.stat "/tmp/myprog.INFO" (some .notExist), Event.mkdirAll "/tmp" none,
       Event.openFile "/tmp/myprog.INFO" .createTrunc (.ok 0),
       Event.remove "/tmp/INFO" (some .notExist),
       Event.symlink "myprog.INFO" "/tmp/INFO" none] ∧
    (∀ x, Event.remove "/tmp/myprog.INFO" x ∉
      createLog ⟨"", "/tmp", "myprog"⟩ (memOS pathJoin) "INFO" ⟨1704103200, 0, 0⟩
        Globals.initial MemFS.empty) ∧
    (∀ target y, Event.symlink target "/tmp/myprog.INFO" y ∉
      createLog ⟨"", "/tmp", "myprog"⟩ (memOS pathJoin) "INFO" ⟨1704103200, 0, 0⟩
        Globals.initial MemFS.empty) ∧
    (create ⟨"", "/tmp", "myprog"⟩ (memOS pathJoin) "INFO" ⟨1704103200, 0, 0⟩
      Globals.initial MemFS.empty).2.2.nodes "/tmp/myprog.INFO" = some (.file 0 "") ∧
    (create ⟨"", "/tmp", "myprog"⟩ (memOS pathJoin) "INFO" ⟨1704103200, 0, 0⟩
      Globals.initial MemFS.empty).2.2.nodes "/tmp/INFO" = some (.link "myprog.INFO") := by
  have hlog : createLog ⟨"", "/tmp", "myprog"⟩ (memOS pathJoin) "INFO" ⟨1704103200, 0, 0⟩
      Globals.initial MemFS.empty =
      [Event.stat "/tmp/myprog.INFO" (some .notExist), Event.mkdirAll "/tmp" none,
       Event.openFile "/tmp/myprog.INFO" .createTrunc (.ok 0),
       Event.remove "/tmp/INFO" (some .notExist),
       Event.symlink "myprog.INFO" "/tmp/INFO" none] := by decide
  refine ⟨by decide, by decide, hlog, ?_, ?_, by decide, by decide⟩
  · intro x hx
    rw [hlog] at hx
    simp at hx
  · intro target y hy
    rw [hlog] at hy
    simp at hy

/-! ## Theorems: `openFile` -/

theorem openLoop_cons {W : Type} (os : OS W) (name d : String) (rest : List String)
    (lastErr : Option LogError) (w : W) :
    openLoop os name (d :: rest) lastErr w =
      if isNotExist (os.stat (os.join d name) w).1 = true then
        openLoop os name rest ((os.stat (os.join d name) w).1.map LogError.os)
          (os.stat (os.join d name) w).2
      else
        match (os.openFile (os.join d name) .rdwr (os.stat (os.join d name) w).2).1 with
        | .ok f => ((some f, none),
            (os.openFile (os.join d name) .rdwr (os.stat (os.join d name) w).2).2)
        | .error e => openLoop os name rest (some (.os e))
            (os.openFile (os.join d name) .rdwr (os.stat (os.join d name) w).2).2 := by
  simp only [openLoop]
  by_cases hst : isNotExist (os.stat (os.join d name) w).1 = true
  · simp [hst]
  · simp only [hst, Bool.not_false, if_true, if_false]
    rcases hop : os.openFile (os.join d name) OpenMode.rdwr (os.stat (os.join d name) w).2
      with ⟨_ | f, w1⟩ <;> simp

theorem openLoop_spec {W : Type} (os : OS W) (name : String)
    (hstat : ∀ p w, (os.stat p w).2 = w)
    (hopen : ∀ p w e, (os.openFile p .rdwr w).1 = .error e → (os.openFile p .rdwr w).2 = w)
    (dirs : List String) (lastErr : Option LogError) (w : W) :
    (∀ f, (openLoop os name dirs lastErr w).1.1 = some f ↔
      ∃ pre d post, dirs = pre ++ d :: post ∧ statFinds os name w d ∧ opens os name w d f ∧
        ∀ d2 ∈ pre, ¬ (statFinds os name w d2 ∧ ∃ f2, opens os name w d2 f2)) ∧
    (∀ f, (openLoop os name dirs lastErr w).1.1 = some f →
      (openLoop os name dirs lastErr w).1.2 = none) ∧
    ((openLoop os name dirs lastErr w).1.1 = none → ∀ pre dl, dirs = pre ++ [dl] →
      (statFinds os name w dl ∧ ∃ e, (os.openFile (os.join dl name) .rdwr w).1 = .error e ∧
        (openLoop os name dirs lastErr w).1.2 = some (.os e)) ∨
      (¬ statFinds os name w dl ∧
        (openLoop os name dirs lastErr w).1.2 = some (.os .notExist))) ∧
    ((openLoop os name dirs lastErr w).1.1 = none → dirs = [] →
      (openLoop os name dirs lastErr w).1.2 = lastErr) := by
  induction dirs generalizing lastErr with
  | nil =>
    refine ⟨?_, ?_, ?_, ?_⟩
    · intro f
      simp [openLoop]
    · intro f h
      simp [openLoop] at h
    · intro _ pre dl h
      simp at h
    · intro _ _
      simp [openLoop]
  | cons d rest ih =>
    rw [openLoop_cons, hstat]
    by_cases hst : isNotExist (os.stat (os.join d name) w).1 = true
    · -- the file is reported missing: the loop goes on
      have hnp : ¬ statFinds os name w d := by simp [statFinds, hst]
      have hne : (os.stat (os.join d name) w).1 = some .notExist := by
        rcases h : (os.stat (os.join d name) w).1 with _ | e
        · rw [h] at hst; simp [isNotExist] at hst
        · cases e <;> rw [h] at hst <;> simp [isNotExist] at hst
      simp only [hst, if_true]
      obtain ⟨ih1, ih2, ih3, ih4⟩ := ih ((os.stat (os.join d name) w).1.map LogError.os)
      refine ⟨?_, ih2, ?_, ?_⟩
      · intro f
        rw [ih1 f]
        constructor
        · rintro ⟨pre, d1, post, hd, hp, ho, hpre⟩
          refine ⟨d :: pre, d1, post, by simp [hd], hp, ho, ?_⟩
          intro d2 hd2
          rcases List.mem_cons.1 hd2 with rfl | h2
          · exact fun h => hnp h.1
          · exact hpre d2 h2
        · rintro ⟨pre, d1, post, hd, hp, ho, hpre⟩
          cases pre with
          | nil =>
            simp only [List.nil_append, List.cons.injEq] at hd
            rw [← hd.1] at hp
            exact absurd hp hnp
          | cons q qs =>
            simp only [List.cons_append, List.cons.injEq] at hd
            exact ⟨qs, d1, post, hd.2, hp, ho, fun d2 h2 => hpre d2 (by simp [h2])⟩
      · intro hnone pre dl hd
        cases pre with
        | nil =>
          simp only [List.nil_append, List.cons.injEq] at hd
          obtain ⟨rfl, rfl⟩ := hd
          right
          refine ⟨hnp, ?_⟩
          rw [ih4 hnone rfl, hne]
          rfl
        | cons q qs =>
          simp only [List.cons_append, List.cons.injEq] at hd
          exact ih3 hnone qs dl hd.2
      · intro _ h
        simp at h
    · have hp : statFinds os name w d := by simpa [statFinds] using hst
      have hst2 : isNotExist (os.stat (os.join d name) w).1 = false := hp
      simp only [hst2, Bool.false_eq_true, if_false]
      rcases hop : (os.openFile (os.join d name) OpenMode.rdwr w).1 with e | f0
      · -- the file is there and cannot be opened: the loop goes on
        simp only
        rw [hopen _ _ e hop]
        have hno : ¬ ∃ f2, opens os name w d f2 := by
          rintro ⟨f2, h2⟩
          rw [opens, hop] at h2
          cases h2
        obtain ⟨ih1, ih2, ih3, ih4⟩ := ih (some (.os e))
        refine ⟨?_, ih2, ?_, ?_⟩
        · intro f
          rw [ih1 f]
          constructor
          · rintro ⟨pre, d1, post, hd, hp1, ho, hpre⟩
            refine ⟨d :: pre, d1, post, by simp [hd], hp1, ho, ?_⟩
            intro d2 hd2
            rcases List.mem_cons.1 hd2 with rfl | h2
            · exact fun h => hno h.2
            · exact hpre d2 h2
          · rintro ⟨pre, d1, post, hd, hp1, ho, hpre⟩
            cases pre with
            | nil =>
              simp only [List.nil_append, List.cons.injEq] at hd
              rw [← hd.1] at ho
              exact absurd ⟨f, ho⟩ hno
            | cons q qs =>
              simp only [List.cons_append, List.cons.injEq] at hd
              exact ⟨qs, d1, post, hd.2, hp1, ho, fun d2 h2 => hpre d2 (by simp [h2])⟩
        · intro hnone pre dl hd
          cases pre with
          | nil =>
            simp only [List.nil_append, List.cons.injEq] at hd
            obtain ⟨rfl, rfl⟩ := hd
            left
            exact ⟨hp, e, hop, ih4 hnone rfl⟩
          | cons q qs =>
            simp only [List.cons_append, List.cons.injEq] at hd
            exact ih3 hnone qs dl hd.2
        · intro _ h
          simp at h
      · -- the file is there and opens: it is returned
        simp only
        refine ⟨?_, ?_, ?_, ?_⟩
        · intro f
          constructor
          · intro h
            simp only [Option.some.injEq] at h
            subst h
            exact ⟨[], d, rest, rfl, hp, hop, by simp⟩
          · rintro ⟨pre, d1, post, hd, hp1, ho, hpre⟩
            cases pre with
            | nil =>
              simp only [List.nil_append, List.cons.injEq] at hd
              rw [← hd.1, opens, hop] at ho
              simpa using ho
            | cons q qs =>
              simp only [List.cons_append, List.cons.injEq] at hd
              exact absurd ⟨hd.1 ▸ hp, f0, hd.1 ▸ hop⟩ (hpre q (by simp))
        · intro f _
          trivial
        · intro h
          simp at h
        · intro h
          simp at h

theorem openLoop_traced_events {W : Type} (os : OS W) (name : String) (dirs : List String)
    (lastErr : Option LogError) (w : W) (log : List Event) :
    ∀ ev ∈ (openLoop (traced os) name dirs lastErr (w, log)).2.2,
      ev ∈ log ∨ (∃ p res, ev = Event.stat p res) ∨ (∃ p res, ev = Event.openFile p .rdwr res) := by
  induction dirs generalizing lastErr w log with
  | nil =>
    intro ev hev
    exact Or.inl (by simpa [openLoop] using hev)
  | cons d rest ih =>
    intro ev hev
    rw [openLoop_cons] at hev
    have hlift : ∀ (l : List Event) (w1 : W) (le : Option LogError),
        (∀ x ∈ l, x ∈ log ∨ (∃ p res, x = Event.stat p res) ∨
          (∃ p res, x = Event.openFile p .rdwr res)) →
        ev ∈ (openLoop (traced os) name rest le (w1, l)).2.2 →
        ev ∈ log ∨ (∃ p res, ev = Event.stat p res) ∨
          (∃ p res, ev = Event.openFile p .rdwr res) := by
      intro l w1 le hl h
      rcases ih le w1 l ev h with h1 | h1
      · exact hl ev h1
      · exact Or.inr h1
    split at hev
    · refine hlift _ _ _ ?_ hev
      intro x hx
      simp only [traced, List.mem_append, List.mem_singleton] at hx
      rcases hx with hx | rfl
      · exact Or.inl hx
      · exact Or.inr (Or.inl ⟨_, _, rfl⟩)
    · have hl : ∀ x ∈ ((traced os).openFile ((traced os).join d name) OpenMode.rdwr
          ((traced os).stat ((traced os).join d name) (w, log)).2).2.2,
          x ∈ log ∨ (∃ p res, x = Event.stat p res) ∨
            (∃ p res, x = Event.openFile p .rdwr res) := by
        intro x hx
        simp only [traced, List.mem_append, List.mem_singleton] at hx
        rcases hx with (hx | rfl) | rfl
        · exact Or.inl hx
        · exact Or.inr (Or.inl ⟨_, _, rfl⟩)
        · exact Or.inr (Or.inr ⟨_, _, rfl⟩)
      split at hev
      · exact hl ev hev
      · exact hlift _ _ _ hl hev

theorem exists_first {α : Type} (Q : α → Prop) (l : List α) (h : ∃ d ∈ l, Q d) :
    ∃ pre d post, l = pre ++ d :: post ∧ Q d ∧ ∀ d2 ∈ pre, ¬ Q d2 := by
  induction l with
  | nil => simp at h
  | cons x xs ih =>
    by_cases hx : Q x
    · exact ⟨[], x, xs, rfl, hx, by simp⟩
    · obtain ⟨d, hd, hq⟩ := h
      rcases List.mem_cons.1 hd with rfl | hd2
      · exact absurd hq hx
      · obtain ⟨pre, d1, post, hl, hq1, hpre⟩ := ih ⟨d, hd2, hq⟩
        refine ⟨x :: pre, d1, post, by simp [hl], hq1, ?_⟩
        intro d2 h2
        rcases List.mem_cons.1 h2 with rfl | h3
        · exact hx
        · exact hpre d2 h3

theorem openFile_eq {W : Type} (cfg : Config) (os : OS W) (tag : String) (g : Globals)
    (w : W) (hc : candidates cfg g ≠ []) :
    (openFile cfg os tag g w).1 =
      (openLoop os (cfg.program ++ "." ++ tag) (candidates cfg g) (some .fileMissing) w).1 := by
  unfold openFile candidates
  have hlen : ¬ (onceDo (createLogDirs cfg) g).logDirs.length = 0 := by
    simpa [List.length_eq_zero, candidates] using hc
  simp only [hlen, if_false, logInitName]

theorem memOS_stat_world (join : String → String → String) (p : String) (fs : MemFS) :
    ((memOS join).stat p fs).2 = fs := by
  simp only [memOS, MemFS.stat]
  split
  · rfl
  · split <;> rfl

theorem memOS_open_world (join : String → String → String) (p : String) (fs : MemFS)
    (e : OsErr) (h : ((memOS join).openFile p .rdwr fs).1 = .error e) :
    ((memOS join).openFile p .rdwr fs).2 = fs := by
  simp only [memOS, MemFS.openFile] at h ⊢
  split
  · rfl
  · split
    · rfl
    · split <;> first | rfl | simp_all

theorem memOS_stat_missing (join : String → String → String) (p : String) (fs : MemFS)
    (h : isNotExist ((memOS join).stat p fs).1 = true) : fs.leadsTo p = none := by
  simp only [memOS, MemFS.stat] at h
  simp only [MemFS.leadsTo]
  split
  · rfl
  · rename_i q hq
    rw [hq] at h
    simp only at h
    split at h
    · assumption
    · simp [isNotExist] at h

theorem memOS_open_leads (join : String → String → String) (p : String) (fs : MemFS)
    (f : Handle) (h : ((memOS join).openFile p .rdwr fs).1 = .ok f) :
    (fs.leadsTo p).isSome = true := by
  simp only [memOS, MemFS.openFile] at h
  simp only [MemFS.leadsTo]
  split at h
  · simp at h
  · split at h
    · simp at h
    · split at h <;> simp_all

/-- C9, as the code has it: on an operating system where `Stat` and a failed
read-write open leave the world as it was, where `Stat` answers not-exist only for a
path at which no file is, and where the open without create succeeds only on a path at
which a file is: `openFile` returns the file `f` exactly when `f` is what opening
gives in the first candidate directory, in list order, that contains the logical file
and where opening it read-write succeeds, and then returns a nil error; so it returns
a file exactly when there is such a candidate. Otherwise it returns the error of the
last candidate: not-exist when `Stat` answered not-exist for it, and otherwise the
error of the open (which `openFile` attempts whenever `Stat` did not answer
not-exist, also when `Stat` failed in another way); so it returns not-exist when
`Stat` answers not-exist for every candidate. The only calls are `Stat` and the
read-write open without create or truncate (no `os.Create`, no `Rename`), on any
operating system. The last part states the first one with the test of the code in
place of the content of the directory. -/
theorem openFile_first_present {W : Type} (cfg : Config) (os : OS W) (tag : String)
    (g : Globals) (w : W) (there : W → String → Prop)
    (hstat : ∀ p w, (os.stat p w).2 = w)
    (hopen : ∀ p w e, (os.openFile p .rdwr w).1 = .error e → (os.openFile p .rdwr w).2 = w)
    (hmiss : ∀ p w, isNotExist (os.stat p w).1 = true → ¬ there w p)
    (hok : ∀ p w f, (os.openFile p .rdwr w).1 = .ok f → there w p)
    (hc : candidates cfg g ≠ []) :
    (∀ f, (openFile cfg os tag g w).1.1 = some f ↔
      ∃ pre d post, candidates cfg g = pre ++ d :: post ∧
        there w (os.join d (cfg.program ++ "." ++ tag)) ∧
        opens os (cfg.program ++ "." ++ tag) w d f ∧
        ∀ d2 ∈ pre, ¬ (there w (os.join d2 (cfg.program ++ "." ++ tag)) ∧
          ∃ f2, opens os (cfg.program ++ "." ++ tag) w d2 f2)) ∧
    ((∃ f, (openFile cfg os tag g w).1.1 = some f) ↔
      ∃ d ∈ candidates cfg g, there w (os.join d (cfg.program ++ "." ++ tag)) ∧
        ∃ f, opens os (cfg.program ++ "." ++ tag) w d f) ∧
    (∀ f, (openFile cfg os tag g w).1.1 = some f → (openFile cfg os tag g w).1.2 = none) ∧
    ((openFile cfg os tag g w).1.1 = none → ∀ pre dl, candidates cfg g = pre ++ [dl] →
      (statFinds os (cfg.program ++ "." ++ tag) w dl ∧
        ∃ e, (os.openFile (os.join dl (cfg.program ++ "." ++ tag)) .rdwr w).1 = .error e ∧
          (openFile cfg os tag g w).1.2 = some (.os e)) ∨
      (¬ statFinds os (cfg.program ++ "." ++ tag) w dl ∧
        (openFile cfg os tag g w).1.2 = some (.os .notExist))) ∧
    ((∀ d ∈ candidates cfg g, ¬ statFinds os (cfg.program ++ "." ++ tag) w d) →
      (openFile cfg os tag g w).1 = (none, some (.os .notExist))) ∧
    (∀ ev ∈ openLog cfg os tag g w,
      (∃ p res, ev = Event.stat p res) ∨ (∃ p res, ev = Event.openFile p .rdwr res)) ∧
    (∀ f, (openFile cfg os tag g w).1.1 = some f ↔
      ∃ pre d post, candidates cfg g = pre ++ d :: post ∧
        statFinds os (cfg.program ++ "." ++ tag) w d ∧
        opens os (cfg.program ++ "." ++ tag) w d f ∧
        ∀ d2 ∈ pre, ¬ (statFinds os (cfg.program ++ "." ++ tag) w d2 ∧
          ∃ f2, opens os (cfg.program ++ "." ++ tag) w d2 f2)) := by
  rw [openFile_eq cfg os tag g w hc]
  obtain ⟨h1, h2, h3, _⟩ := openLoop_spec os (cfg.program ++ "." ++ tag) hstat hopen
    (candidates cfg g) (some .fileMissing) w
  -- the test of the code and the content of the directory agree where the open succeeds
  have hfinds : ∀ d, there w (os.join d (cfg.program ++ "." ++ tag)) →
      statFinds os (cfg.program ++ "." ++ tag) w d := by
    intro d hd
    unfold statFinds
    by_contra hn
    have : isNotExist (os.stat (os.join d (cfg.program ++ "." ++ tag)) w).1 = true := by
      simpa using hn
    exact hmiss _ _ this hd
  have hthere : ∀ d f, opens os (cfg.program ++ "." ++ tag) w d f →
      there w (os.join d (cfg.program ++ "." ++ tag)) := fun d f ho => hok _ _ f ho
  have h1b : ∀ f, (openLoop os (cfg.program ++ "." ++ tag) (candidates cfg g)
        (some .fileMissing) w).1.1 = some f ↔
      ∃ pre d post, candidates cfg g = pre ++ d :: post ∧
        there w (os.join d (cfg.program ++ "." ++ tag)) ∧
        opens os (cfg.program ++ "." ++ tag) w d f ∧
        ∀ d2 ∈ pre, ¬ (there w (os.join d2 (cfg.program ++ "." ++ tag)) ∧
          ∃ f2, opens os (cfg.program ++ "." ++ tag) w d2 f2) := by
    intro f
    rw [h1 f]
    constructor
    · rintro ⟨pre, d, post, hd, _, ho, hpre⟩
      refine ⟨pre, d, post, hd, hthere d f ho, ho, ?_⟩
      rintro d2 hd2 ⟨ht, f2, ho2⟩
      exact hpre d2 hd2 ⟨hfinds d2 ht, f2, ho2⟩
    · rintro ⟨pre, d, post, hd, ht, ho, hpre⟩
      refine ⟨pre, d, post, hd, hfinds d ht, ho, ?_⟩
      rintro d2 hd2 ⟨_, f2, ho2⟩
      exact hpre d2 hd2 ⟨hthere d2 f2 ho2, f2, ho2⟩
  have h5 : (∃ f, (openLoop os (cfg.program ++ "." ++ tag) (candidates cfg g)
        (some .fileMissing) w).1.1 = some f) ↔
      ∃ d ∈ candidates cfg g, there w (os.join d (cfg.program ++ "." ++ tag)) ∧
        ∃ f, opens os (cfg.program ++ "." ++ tag) w d f := by
    constructor
    · rintro ⟨f, hf⟩
      obtain ⟨pre, d, post, hd, hp, ho, _⟩ := (h1b f).1 hf
      exact ⟨d, by simp [hd], hp, f, ho⟩
    · intro h
      obtain ⟨pre, d, post, hd, ⟨hp, f, ho⟩, hpre⟩ := exists_first
        (fun d => there w (os.join d (cfg.program ++ "." ++ tag)) ∧
          ∃ f, opens os (cfg.program ++ "." ++ tag) w d f) (candidates cfg g) h
      exact ⟨f, (h1b f).2 ⟨pre, d, post, hd, hp, ho, hpre⟩⟩
  refine ⟨h1b, h5, h2, h3, ?_, ?_, h1⟩
  · intro hnone
    have hf : (openLoop os (cfg.program ++ "." ++ tag) (candidates cfg g)
        (some .fileMissing) w).1.1 = none := by
      rcases hres : (openLoop os (cfg.program ++ "." ++ tag) (candidates cfg g)
        (some .fileMissing) w).1.1 with _ | f
      · rfl
      · obtain ⟨d, hd, hp, _⟩ := h5.1 ⟨f, hres⟩
        exact absurd (hfinds d hp) (hnone d hd)
    obtain ⟨pre, dl, hl⟩ : ∃ pre dl, candidates cfg g = pre ++ [dl] :=
      ⟨(candidates cfg g).dropLast, (candidates cfg g).getLast hc,
        (List.dropLast_append_getLast hc).symm⟩
    rcases h3 hf pre dl hl with ⟨hp, _⟩ | ⟨_, herr⟩
    · exact absurd hp (hnone dl (by simp [hl]))
    · exact Prod.ext hf herr
  · intro ev hev
    unfold openLog openFile at hev
    simp only at hev
    split at hev
    · simp at hev
    · rcases openLoop_traced_events os _ _ _ w [] ev hev with h | h
      · simp at h
      · exact h

/-- C9 on the file system in memory: the log file of `INFO` is in `/tmp`, the second
of the candidates `/a` and `/tmp`, and `openFile` returns it. -/
theorem openFile_first_present_witness :
    (∀ p w, ((memOS pathJoin).stat p w).2 = w) ∧
    (∀ p w e, ((memOS pathJoin).openFile p .rdwr w).1 = .error e →
      ((memOS pathJoin).openFile p .rdwr w).2 = w) ∧
    (∀ p (w : MemFS), isNotExist ((memOS pathJoin).stat p w).1 = true →
      ¬ (w.leadsTo p).isSome = true) ∧
    (∀ p (w : MemFS) f, ((memOS pathJoin).openFile p .rdwr w).1 = .ok f →
      (w.leadsTo p).isSome = true) ∧
    candidates ⟨"", "/tmp", "myprog"⟩ ⟨["/a", "/tmp"], true⟩ ≠ [] ∧
    (openFile ⟨"", "/tmp", "myprog"⟩ (memOS pathJoin) "INFO" ⟨["/a", "/tmp"], true⟩
      fsLogFile).1 = (some 3, none) ∧
    (openFile ⟨"", "/tmp", "myprog"⟩ (memOS pathJoin) "INFO" ⟨["/a", "/tmp"], true⟩
      fsLogFile).1.2 = none :=
  ⟨memOS_stat_world pathJoin, memOS_open_world pathJoin,
   fun p w h => by rw [memOS_stat_missing pathJoin p w h]; simp,
   memOS_open_leads pathJoin, by decide, by decide,
   (openFile_first_present ⟨"", "/tmp", "myprog"⟩ (memOS pathJoin) "INFO" ⟨["/a", "/tmp"], true⟩
      fsLogFile (fun w p => (w.leadsTo p).isSome = true)
      (memOS_stat_world pathJoin) (memOS_open_world pathJoin)
      (fun p w h => by show ¬ (w.leadsTo p).isSome = true
                       rw [memOS_stat_missing pathJoin p w h]; simp)
      (memOS_open_leads pathJoin) (by decide)).2.2.1 3 (by decide)⟩

/-- C9 as stated fails: the override directory `/data` is a regular file, so no
candidate directory contains the logical file `/data/myprog.INFO` (no `create` has been
called). `Stat` of that path fails with `ENOTDIR`, which is not a not-exist error, so
`openFile` attempts the open, which fails with `ENOTDIR` too, and `openFile` returns
that error and not the not-found error. -/
theorem openFile_not_found_counterexample :
    candidates ⟨"/data", "/tmp", "myprog"⟩ Globals.initial = ["/data"] ∧
    fsDataFile.leadsTo (pathJoin "/data" ("myprog" ++ "." ++ "INFO")) = none ∧
    openLog ⟨"/data", "/tmp", "myprog"⟩ (memOS pathJoin) "INFO" Globals.initial fsDataFile =
      [Event.stat "/data/myprog.INFO" (some .notDir),
       Event.openFile "/data/myprog.INFO" .rdwr (.error .notDir)] ∧
    (openFile ⟨"/data", "/tmp", "myprog"⟩ (memOS pathJoin) "INFO" Globals.initial
      fsDataFile).1 = (none, some (.os .notDir)) ∧
    isNotExist (some .notDir) = false := by
  refine ⟨by decide, by decide, by decide, by decide, by decide⟩

/-! ## Theorems: two calls of `create` -/

theorem MemFS.nodes_set (fs : MemFS) (p q : String) (v : Option Node) :
    (fs.set p v).nodes q = if q = p then v else fs.nodes q := by
  by_cases h : q = p
  · subst h
    simp [MemFS.nodes, MemFS.set, List.lookup]
  · have hb : (q == p) = false := by simpa using h
    simp [MemFS.nodes, MemFS.set, List.lookup, hb, h]

theorem memEntry_set_self (fs : MemFS) (p : String) (v : Option Node) :
    memEntry (fs.set p v) p = memEntry (MemFS.empty.set p v) p := by
  simp [memEntry, MemFS.nodes_set]

theorem memEntry_congr (fs fs2 : MemFS) (h : fs2.table = fs.table) (q : String) :
    memEntry fs2 q = memEntry fs q := by
  simp [memEntry, MemFS.nodes, h]

theorem absDate_decomp (days : Int) :
    ∃ n400 n100 n4 n1 : Int, 0 ≤ n100 ∧ n100 ≤ 3 ∧ 0 ≤ n4 ∧ n4 ≤ 24 ∧ 0 ≤ n1 ∧ n1 ≤ 3 ∧
      0 ≤ (absDate days).2 ∧ (absDate days).2 ≤ 365 ∧
      (absDate days).1 = 400 * n400 + 100 * n100 + 4 * n4 + n1 + 1 ∧
      days + 719162 = 146097 * n400 + 36524 * n100 + 1461 * n4 + 365 * n1 + (absDate days).2 ∧
      ((absDate days).2 = 365 → n1 = 3 ∧ (n4 ≤ 23 ∨ n100 = 3)) := by
  refine ⟨(days + 719162) / 146097, _, _, _, ?_, ?_, ?_, ?_, ?_, ?_, ?_, ?_, rfl, ?_, ?_⟩ <;>
    first | (simp only [absDate]; omega) | omega

theorem absDate_inj (a b : Int) (hy : (absDate a).1 = (absDate b).1)
    (hd : (absDate a).2 = (absDate b).2) : a = b := by
  obtain ⟨a400, a100, a4, a1, h1, h2, h3, h4, h5, h6, h7, h8, h9, h10, _⟩ := absDate_decomp a
  obtain ⟨b400, b100, b4, b1, g1, g2, g3, g4, g5, g6, g7, g8, g9, g10, _⟩ := absDate_decomp b
  rw [h9, g9] at hy
  rw [hd] at h10
  have e1 : a1 = b1 := by omega
  have e4 : a4 = b4 := by omega
  have e100 : a100 = b100 := by omega
  have e400 : a400 = b400 := by omega
  subst e1 e4 e100 e400
  omega

theorem absDate_yday_leap (days : Int) :
    0 ≤ (absDate days).2 ∧
    ((absDate days).2 ≤ 364 ∨ ((absDate days).2 = 365 ∧ isLeap (absDate days).1 = true)) := by
  obtain ⟨n400, n100, n4, n1, h1, h2, h3, h4, h5, h6, h7, h8, h9, h10, h11⟩ := absDate_decomp days
  refine ⟨h7, ?_⟩
  by_cases h : (absDate days).2 = 365
  · right
    refine ⟨h, ?_⟩
    obtain ⟨e1, e2⟩ := h11 h
    rw [h9]
    simp only [isLeap, Bool.and_eq_true, Bool.or_eq_true, decide_eq_true_eq, ne_eq,
      Bool.not_eq_true', decide_eq_false_iff_not]
    omega
  · left; omega

theorem monthDay_spec (year yday : Int) (h0 : 0 ≤ yday)
    (h1 : yday ≤ 364 ∨ (yday = 365 ∧ isLeap year = true)) :
    1 ≤ (monthDay year yday).1 ∧ (monthDay year yday).1 ≤ 12 ∧
    1 ≤ (monthDay year yday).2 ∧ (monthDay year yday).2 ≤ 31 ∧
    ydayOf (isLeap year) (monthDay year yday).1 (monthDay year yday).2 = yday := by
  unfold monthDay
  by_cases hl : isLeap year = true
  · by_cases h59 : yday = 59
    · subst h59
      simp [hl, ydayOf, daysBefore]
    · have hb : (yday == 59) = false := by simpa using h59
      simp only [hl, hb, Bool.and_false, Bool.false_eq_true, if_false, Bool.true_and,
        decide_eq_true_eq]
      by_cases hgt : yday > 59
      · simp only [hgt, if_true]
        obtain ⟨m, hm⟩ : ∃ m : Nat, ((yday - 1) / 31).toNat = m := ⟨_, rfl⟩
        have hm2 : (m : Int) = (yday - 1) / 31 := by omega
        have hm3 : m ≤ 11 := by omega
        rw [hm]
        interval_cases m <;> simp only [daysBefore, ydayOf] <;> split <;>
          simp [hl, daysBefore] <;> omega
      · simp only [hgt, if_false]
        obtain ⟨m, hm⟩ : ∃ m : Nat, (yday / 31).toNat = m := ⟨_, rfl⟩
        have hm2 : (m : Int) = yday / 31 := by omega
        have hm3 : m ≤ 1 := by omega
        rw [hm]
        interval_cases m <;> simp only [daysBefore, ydayOf] <;> split <;>
          simp [hl, daysBefore] <;> omega
  · have hl2 : isLeap year = false := by simpa using hl
    have h364 : yday ≤ 364 := by
      rcases h1 with h | ⟨_, h⟩
      · exact h
      · rw [hl2] at h; cases h
    simp only [hl2, Bool.false_and, Bool.false_eq_true, if_false]
    obtain ⟨m, hm⟩ : ∃ m : Nat, (yday / 31).toNat = m := ⟨_, rfl⟩
    have hm2 : (m : Int) = yday / 31 := by omega
    have hm3 : m ≤ 11 := by omega
    rw [hm]
    interval_cases m <;> simp only [daysBefore, ydayOf] <;> split <;>
      simp [hl2, daysBefore] <;> omega

theorem Time.date_inj (t1 t2 : Time) (hy : t1.Year = t2.Year) (hm : t1.Month = t2.Month)
    (hd : t1.Day = t2.Day) : t1.days = t2.days := by
  unfold Time.Month Time.Day at *
  obtain ⟨ha0, ha1⟩ := absDate_yday_leap t1.days
  obtain ⟨hb0, hb1⟩ := absDate_yday_leap t2.days
  have ha := (monthDay_spec _ _ ha0 ha1).2.2.2.2
  have hb := (monthDay_spec _ _ hb0 hb1).2.2.2.2
  have hy2 : (absDate t1.days).1 = (absDate t2.days).1 := hy
  have hm2 : (monthDay (absDate t1.days).1 (absDate t1.days).2).1 =
      (monthDay (absDate t2.days).1 (absDate t2.days).2).1 := hm
  have hd2 : (monthDay (absDate t1.days).1 (absDate t1.days).2).2 =
      (monthDay (absDate t2.days).1 (absDate t2.days).2).2 := hd
  rw [hm2, hd2, hy2, hb] at ha
  exact absDate_inj _ _ hy2 ha.symm

theorem Time.field_ranges (t : Time) :
    1 ≤ t.Month ∧ t.Month ≤ 12 ∧ 1 ≤ t.Day ∧ t.Day ≤ 31 ∧ 0 ≤ t.Hour ∧ t.Hour ≤ 23 ∧
    0 ≤ t.Minute ∧ t.Minute ≤ 59 ∧ 0 ≤ t.Second ∧ t.Second ≤ 59 := by
  obtain ⟨h0, h1⟩ := absDate_yday_leap t.days
  obtain ⟨m1, m2, d1, d2, _⟩ := monthDay_spec _ _ h0 h1
  refine ⟨m1, m2, d1, d2, ?_⟩
  simp only [Time.Hour, Time.Minute, Time.Second, Time.secOfDay]
  omega

theorem Time.clock_inj (t1 t2 : Time) (hh : t1.Hour = t2.Hour) (hm : t1.Minute = t2.Minute)
    (hs : t1.Second = t2.Second) : t1.secOfDay = t2.secOfDay := by
  simp only [Time.Hour, Time.Minute, Time.Second, Time.secOfDay] at *
  omega

theorem Time.wall_inj (t1 t2 : Time) (hd : t1.days = t2.days)
    (hs : t1.secOfDay = t2.secOfDay) : t1.wall = t2.wall := by
  simp only [Time.days, Time.secOfDay] at *
  omega

/-! ## Theorems: decimal formatting -/

theorem toDigitsCore_fuel (fuel1 fuel2 n : Nat) (acc : List Char) (h1 : n < fuel1)
    (h2 : n < fuel2) : Nat.toDigitsCore 10 fuel1 n acc = Nat.toDigitsCore 10 fuel2 n acc := by
  induction fuel1 generalizing fuel2 n acc with
  | zero => omega
  | succ f1 ih =>
    cases fuel2 with
    | zero => omega
    | succ f2 =>
      simp only [Nat.toDigitsCore]
      by_cases h0 : n / 10 = 0
      · simp [h0]
      · simp only [h0, if_false]
        exact ih f2 (n / 10) _ (by omega) (by omega)

theorem toDigitsCore_acc (fuel n : Nat) (acc : List Char) :
    Nat.toDigitsCore 10 fuel n acc = Nat.toDigitsCore 10 fuel n [] ++ acc := by
  induction fuel generalizing n acc with
  | zero => simp [Nat.toDigitsCore]
  | succ f ih =>
    simp only [Nat.toDigitsCore]
    by_cases h0 : n / 10 = 0
    · simp [h0]
    · simp only [h0, if_false]
      rw [ih (n / 10) (_ :: acc), ih (n / 10) [_]]
      simp

theorem toDigits_small (n : Nat) (h : n < 10) : Nat.toDigits 10 n = [Nat.digitChar n] := by
  have h0 : n / 10 = 0 := by omega
  have h1 : n % 10 = n := by omega
  simp [Nat.toDigits, Nat.toDigitsCore, h0, h1]

theorem toDigits_step (n : Nat) (h : 10 ≤ n) :
    Nat.toDigits 10 n = Nat.toDigits 10 (n / 10) ++ [Nat.digitChar (n % 10)] := by
  have h0 : n / 10 ≠ 0 := by omega
  have hL : Nat.toDigits 10 n = Nat.toDigitsCore 10 n (n / 10) [Nat.digitChar (n % 10)] := by
    simp only [Nat.toDigits, Nat.toDigitsCore, h0, if_false]
  have hR : Nat.toDigits 10 (n / 10) = Nat.toDigitsCore 10 (n / 10 + 1) (n / 10) [] := rfl
  rw [hL, hR, toDigitsCore_acc,
    toDigitsCore_fuel n (n / 10 + 1) (n / 10) [] (by omega) (by omega)]

theorem fmtZeroPad_two (n : Int) (h0 : 0 ≤ n) (h1 : n ≤ 99) : fmtZeroPad 2 n = twoDigits n := by
  obtain ⟨k, rfl⟩ : ∃ k : Nat, n = k := ⟨n.toNat, by omega⟩
  have hk : k ≤ 99 := by omega
  simp only [fmtZeroPad, twoDigits, Int.toNat_ofNat]
  have hneg : ¬ ((k : Int) < 0) := by omega
  simp only [hneg, if_false]
  by_cases h10 : k < 10
  · have e1 : k / 10 = 0 := by omega
    have e2 : k % 10 = k := by omega
    rw [toDigits_small k h10, e1, e2]
    rfl
  · rw [toDigits_step k (by omega), toDigits_small (k / 10) (by omega)]
    rfl

theorem fmtZeroPad_four (n : Int) (h0 : 0 ≤ n) (h1 : n ≤ 9999) :
    fmtZeroPad 4 n = fourDigits n := by
  obtain ⟨k, rfl⟩ : ∃ k : Nat, n = k := ⟨n.toNat, by omega⟩
  have hk : k ≤ 9999 := by omega
  simp only [fmtZeroPad, fourDigits, Int.toNat_ofNat]
  have hneg : ¬ ((k : Int) < 0) := by omega
  simp only [hneg, if_false]
  by_cases h10 : k < 10
  · have e1 : k / 1000 = 0 := by omega
    have e2 : k / 100 % 10 = 0 := by omega
    have e3 : k / 10 % 10 = 0 := by omega
    have e4 : k % 10 = k := by omega
    rw [toDigits_small k h10, e1, e2, e3, e4]
    rfl
  · by_cases h100 : k < 100
    · have e1 : k / 1000 = 0 := by omega
      have e2 : k / 100 % 10 = 0 := by omega
      have e3 : k / 10 % 10 = k / 10 := by omega
      rw [toDigits_step k (by omega), toDigits_small (k / 10) (by omega), e1, e2, e3]
      rfl
    · by_cases h1000 : k < 1000
      · have e1 : k / 1000 = 0 := by omega
        have e2 : k / 100 % 10 = k / 10 / 10 := by omega
        have e3 : k / 10 % 10 = k / 10 % 10 := rfl
        rw [toDigits_step k (by omega), toDigits_step (k / 10) (by omega),
          toDigits_small (k / 10 / 10) (by omega), e1, e2]
        rfl
      · have e1 : k / 1000 = k / 10 / 10 / 10 := by omega
        have e2 : k / 100 % 10 = k / 10 / 10 % 10 := by omega
        rw [toDigits_step k (by omega), toDigits_step (k / 10) (by omega),
          toDigits_step (k / 10 / 10) (by omega),
          toDigits_small (k / 10 / 10 / 10) (by omega), e1, e2]
        rfl

theorem digitVal_digitChar (k : Nat) (h : k < 10) : digitVal (Nat.digitChar k) = k := by
  interval_cases k <;> rfl

theorem digitChar_ne_minus (k : Nat) (h : k < 10) : Nat.digitChar k ≠ '-' := by
  interval_cases k <;> decide

theorem decVal_append (l : List Char) (c : Char) :
    decVal (l ++ [c]) = 10 * decVal l + digitVal c := by
  simp [decVal, List.foldl_append]

theorem decVal_toDigits (n : Nat) : decVal (Nat.toDigits 10 n) = n := by
  induction n using Nat.strong_induction_on with
  | _ n ih =>
    by_cases h : n < 10
    · rw [toDigits_small n h]
      simp [decVal, digitVal_digitChar n h]
    · rw [toDigits_step n (by omega), decVal_append, ih (n / 10) (by omega),
        digitVal_digitChar _ (Nat.mod_lt _ (by decide))]
      omega

theorem toDigits_no_minus (n : Nat) : '-' ∉ Nat.toDigits 10 n := by
  induction n using Nat.strong_induction_on with
  | _ n ih =>
    by_cases h : n < 10
    · rw [toDigits_small n h]
      simpa using (digitChar_ne_minus n h).symm
    · rw [toDigits_step n (by omega)]
      simp only [List.mem_append, List.mem_singleton, not_or]
      exact ⟨ih (n / 10) (by omega), (digitChar_ne_minus _ (Nat.mod_lt _ (by decide))).symm⟩

theorem decVal_padZero (w : Nat) (l : List Char) : decVal (padZero w l) = decVal l := by
  unfold padZero
  generalize w - l.length = k
  induction k with
  | zero => simp
  | succ k ih =>
    simp only [List.replicate_succ, List.cons_append, decVal, List.foldl_cons] at ih ⊢
    have : 10 * 0 + digitVal '0' = 0 := by decide
    rw [this]
    exact ih

theorem padZero_no_minus (w : Nat) (l : List Char) (h : '-' ∉ l) : '-' ∉ padZero w l := by
  unfold padZero
  simp only [List.mem_append, not_or]
  refine ⟨?_, h⟩
  intro hm
  have := List.eq_of_mem_replicate hm
  exact absurd this (by decide)

theorem fmtZeroPad_inj (w : Nat) (a b : Int) (h : fmtZeroPad w a = fmtZeroPad w b) : a = b := by
  unfold fmtZeroPad at h
  have h := congrArg String.data h
  by_cases ha : a < 0 <;> by_cases hb : b < 0
  · simp only [ha, hb, if_true, List.cons.injEq, true_and] at h
    have := congrArg decVal h
    rw [decVal_padZero, decVal_padZero, decVal_toDigits, decVal_toDigits] at this
    omega
  · simp only [ha, hb, if_true, if_false] at h
    exfalso
    apply padZero_no_minus w _ (toDigits_no_minus b.toNat)
    rw [← h]
    simp
  · simp only [ha, hb, if_true, if_false] at h
    exfalso
    apply padZero_no_minus w _ (toDigits_no_minus a.toNat)
    rw [h]
    simp
  · simp only [ha, hb, if_false] at h
    have := congrArg decVal h
    rw [decVal_padZero, decVal_padZero, decVal_toDigits, decVal_toDigits] at this
    omega

/-! ## Theorems: the name with a time stamp -/

theorem logName_two_digits (program tag : String) (t : Time) :
    (logName program tag t).1 =
      program ++ "." ++ tag ++ "." ++
        (fmtZeroPad 4 t.Year ++ twoDigits t.Month ++ twoDigits t.Day ++ "-" ++
          twoDigits t.Hour ++ twoDigits t.Minute ++ twoDigits t.Second) := by
  obtain ⟨m1, m2, d1, d2, h1, h2, mi1, mi2, s1, s2⟩ := t.field_ranges
  simp only [logName]
  rw [fmtZeroPad_two t.Month (by omega) (by omega), fmtZeroPad_two t.Day (by omega) (by omega),
    fmtZeroPad_two t.Hour h1 (by omega), fmtZeroPad_two t.Minute mi1 (by omega),
    fmtZeroPad_two t.Second s1 (by omega)]
  simp only [String.append_assoc]

/-- C3: `logName` returns the link base `program.tag` and the file name
`program.tag.` followed by the time stamp: the year as `%04d` prints it, then month,
day, a hyphen, hour, minute and second with two digits each (each is in the range
that two digits hold); for the years 0 to 9999 the year is exactly four digits and
the time stamp has 15 characters. -/
theorem logName_format (program tag : String) (t : Time) :
    (logName program tag t).2 = program ++ "." ++ tag ∧
    (logName program tag t).1 =
      program ++ "." ++ tag ++ "." ++
        (fmtZeroPad 4 t.Year ++ twoDigits t.Month ++ twoDigits t.Day ++ "-" ++
          twoDigits t.Hour ++ twoDigits t.Minute ++ twoDigits t.Second) ∧
    (1 ≤ t.Month ∧ t.Month ≤ 12 ∧ 1 ≤ t.Day ∧ t.Day ≤ 31 ∧ 0 ≤ t.Hour ∧ t.Hour ≤ 23 ∧
      0 ≤ t.Minute ∧ t.Minute ≤ 59 ∧ 0 ≤ t.Second ∧ t.Second ≤ 59) ∧
    (0 ≤ t.Year → t.Year ≤ 9999 →
      (logName program tag t).1 =
        program ++ "." ++ tag ++ "." ++
          (fourDigits t.Year ++ twoDigits t.Month ++ twoDigits t.Day ++ "-" ++
            twoDigits t.Hour ++ twoDigits t.Minute ++ twoDigits t.Second) ∧
      (fourDigits t.Year ++ twoDigits t.Month ++ twoDigits t.Day ++ "-" ++
        twoDigits t.Hour ++ twoDigits t.Minute ++ twoDigits t.Second).length = 15) := by
  refine ⟨rfl, logName_two_digits program tag t, t.field_ranges, ?_⟩
  intro h0 h1
  refine ⟨?_, ?_⟩
  · rw [logName_two_digits, fmtZeroPad_four t.Year h0 h1]
  · simp only [String.length_append]
    rfl

/-- C3 at 10:00:00 on 2024-01-01 (UTC) for `myprog` and the tag `INFO`. -/
theorem logName_format_witness :
    (0 : Int) ≤ (Time.mk 1704103200 0 0).Year ∧ (Time.mk 1704103200 0 0).Year ≤ 9999 ∧
    (logName "myprog" "INFO" ⟨1704103200, 0, 0⟩).1 = "myprog.INFO.20240101-100000" ∧
    (logName "myprog" "INFO" ⟨1704103200, 0, 0⟩).1 =
      "myprog" ++ "." ++ "INFO" ++ "." ++
        (fourDigits (Time.mk 1704103200 0 0).Year ++ twoDigits (Time.mk 1704103200 0 0).Month ++
          twoDigits (Time.mk 1704103200 0 0).Day ++ "-" ++
          twoDigits (Time.mk 1704103200 0 0).Hour ++ twoDigits (Time.mk 1704103200 0 0).Minute ++
          twoDigits (Time.mk 1704103200 0 0).Second) :=
  ⟨by decide, by decide, by decide,
   ((logName_format "myprog" "INFO" ⟨1704103200, 0, 0⟩).2.2.2 (by decide) (by decide)).1⟩

theorem digitChar_inj (a b : Nat) (ha : a < 10) (hb : b < 10)
    (h : Nat.digitChar a = Nat.digitChar b) : a = b := by
  have := congrArg digitVal h
  rwa [digitVal_digitChar a ha, digitVal_digitChar b hb] at this

theorem twoDigits_inj (a b : Int) (ha0 : 0 ≤ a) (ha : a ≤ 99) (hb0 : 0 ≤ b) (hb : b ≤ 99)
    (h1 : Nat.digitChar (a.toNat / 10) = Nat.digitChar (b.toNat / 10))
    (h2 : Nat.digitChar (a.toNat % 10) = Nat.digitChar (b.toNat % 10)) : a = b := by
  have e1 := digitChar_inj _ _ (by omega) (by omega) h1
  have e2 := digitChar_inj _ _ (by omega) (by omega) h2
  omega

theorem logName_fields (program tag : String) (t1 t2 : Time)
    (h : (logName program tag t1).1 = (logName program tag t2).1) :
    t1.Year = t2.Year ∧ t1.Month = t2.Month ∧ t1.Day = t2.Day ∧
    t1.Hour = t2.Hour ∧ t1.Minute = t2.Minute ∧ t1.Second = t2.Second := by
  obtain ⟨am1, am2, ad1, ad2, ah1, ah2, ami1, ami2, as1, as2⟩ := t1.field_ranges
  obtain ⟨bm1, bm2, bd1, bd2, bh1, bh2, bmi1, bmi2, bs1, bs2⟩ := t2.field_ranges
  rw [logName_two_digits, logName_two_digits] at h
  have h := congrArg String.data h
  simp only [String.data_append, twoDigits, List.append_assoc, List.append_cancel_left_eq] at h
  have hlen : ∀ (x : List Char) (a b c d e f g i j k : Char),
      (x ++ ([a, b] ++ ([c, d] ++ ("-".data ++ ([e, f] ++ ([g, i] ++ [j, k])))))) =
      x ++ [a, b, c, d, '-', e, f, g, i, j, k] := by
    intros; rfl
  rw [hlen, hlen] at h
  obtain ⟨hY, hrest⟩ := List.append_inj' h rfl
  simp only [List.cons.injEq, and_true, true_and] at hrest
  obtain ⟨c1, c2, c3, c4, c5, c6, c7, c8, c9, c10⟩ := hrest
  refine ⟨fmtZeroPad_inj 4 _ _ (String.ext hY), ?_, ?_, ?_, ?_, ?_⟩
  · exact twoDigits_inj _ _ (by omega) (by omega) (by omega) (by omega) c1 c2
  · exact twoDigits_inj _ _ (by omega) (by omega) (by omega) (by omega) c3 c4
  · exact twoDigits_inj _ _ (by omega) (by omega) (by omega) (by omega) c5 c6
  · exact twoDigits_inj _ _ (by omega) (by omega) (by omega) (by omega) c7 c8
  · exact twoDigits_inj _ _ (by omega) (by omega) (by omega) (by omega) c9 c10

/-- C5, as the code has it: for every tag and every two times `t1 < t2` that differ by
at least one second and have the same offset from UTC, `logName` returns different
file names. -/
theorem logName_distinct_same_offset (program tag : String) (t1 t2 : Time)
    (hoff : t1.offset = t2.offset)
    (hn1 : t1.nsec < 1000000000) (hn2 : t2.nsec < 1000000000)
    (hdiff : t1.sec * 1000000000 + t1.nsec + 1000000000 ≤ t2.sec * 1000000000 + t2.nsec) :
    (logName program tag t1).1 ≠ (logName program tag t2).1 := by
  intro h
  obtain ⟨hy, hm, hd, hh, hmi, hs⟩ := logName_fields program tag t1 t2 h
  have hw := Time.wall_inj t1 t2 (Time.date_inj t1 t2 hy hm hd) (Time.clock_inj t1 t2 hh hmi hs)
  simp only [Time.wall] at hw
  omega

/-- C5 as the code has it, for two times in UTC one second apart. -/
theorem logName_distinct_same_offset_witness :
    (Time.mk 1704103200 0 0).offset = (Time.mk 1704103201 0 0).offset ∧
    (logName "myprog" "INFO" ⟨1704103200, 0, 0⟩).1 ≠
      (logName "myprog" "INFO" ⟨1704103201, 0, 0⟩).1 :=
  ⟨rfl, logName_distinct_same_offset "myprog" "INFO" ⟨1704103200, 0, 0⟩ ⟨1704103201, 0, 0⟩
    rfl (by decide) (by decide) (by decide)⟩

/-- C5 as stated fails: in a zone that leaves summer time on 2023-10-29 (offset +2h
until 01:00 UTC, +1h after), `t1` is 00:30:00 UTC and `t2` is 01:30:00 UTC. `t1` is one
hour before `t2`, and both read 02:30:00 on the wall clock, so `logName` returns the
same file name for both. -/
theorem logName_distinct_counterexample :
    (Time.mk 1698539400 0 7200).sec + 3600 = (Time.mk 1698543000 0 3600).sec ∧
    (logName "myprog" "INFO" ⟨1698539400, 0, 7200⟩).1 = "myprog.INFO.20231029-023000" ∧
    (logName "myprog" "INFO" ⟨1698543000, 0, 3600⟩).1 = "myprog.INFO.20231029-023000" ∧
    (logName "myprog" "INFO" ⟨1698539400, 0, 7200⟩).1 =
      (logName "myprog" "INFO" ⟨1698543000, 0, 3600⟩).1 := by
  refine ⟨by decide, by decide, by decide, by decide⟩

end Glog
